import Mathlib

/-!
Verification of the wattpilot websocket client (`wattpilot.go`) against its
natural-language specification.

The Go source is shallowly embedded: pure computations (key derivation,
challenge hashes, the JSON wire encoding, value coercion) become Lean
functions over `List Nat` byte strings and `String`s; the session struct
becomes an explicit `SessionState` record and each inbound-event handler a
state transformer returning `Option` (with `none` standing for a Go run-time
panic from a failed type assertion).  Machine integers are modelled as `Nat`
with explicit reduction modulo 2^32 / 2^64 where Go would overflow; Go's
`float64` JSON numbers are modelled as rationals (`ℚ`), restricted to finite
values (every finite float64 has a terminating decimal expansion).
-/

namespace Wattpilot

/-! ## Bytes, UTF-8 and hex -/

/-- UTF-8 encoding of a single character, as byte values < 256.  Models Go's
`[]byte(string)` view of one rune. -/
def utf8Bytes (c : Char) : List Nat :=
  let n := c.toNat
  if n < 0x80 then [n]
  else if n < 0x800 then
    [0xC0 ||| (n >>> 6), 0x80 ||| (n &&& 0x3F)]
  else if n < 0x10000 then
    [0xE0 ||| (n >>> 12), 0x80 ||| ((n >>> 6) &&& 0x3F), 0x80 ||| (n &&& 0x3F)]
  else
    [0xF0 ||| (n >>> 18), 0x80 ||| ((n >>> 12) &&& 0x3F),
     0x80 ||| ((n >>> 6) &&& 0x3F), 0x80 ||| (n &&& 0x3F)]

/-- The byte string of a Go `string` (UTF-8), models `[]byte(s)`. -/
def strBytes (s : String) : List Nat :=
  s.data.foldr (fun c acc => utf8Bytes c ++ acc) []

/-- Lowercase hexadecimal digit for a value < 16. -/
def hexDigitChar (n : Nat) : Char :=
  if n < 10 then Char.ofNat (48 + n) else Char.ofNat (87 + n)

/-- Lowercase hex encoding of a byte string; models Go's
`hex.EncodeToString` / `fmt.Sprintf("%x", ...)`. -/
def hexEncode (bs : List Nat) : String :=
  ⟨bs.foldr (fun b acc => hexDigitChar (b / 16 % 16) :: hexDigitChar (b % 16) :: acc) []⟩

/-- Big-endian encoding of `n` into `w` bytes. -/
def toBE (w : Nat) (n : Nat) : List Nat :=
  (List.range w).map (fun i => (n >>> (8 * (w - 1 - i))) % 256)

/-- Big-endian word value of a byte list. -/
def beWord (bs : List Nat) : Nat :=
  bs.foldl (fun a b => a * 256 + b) 0

/-- Bytewise xor of two byte strings. -/
def xorBytes (a b : List Nat) : List Nat :=
  List.zipWith Nat.xor a b

/-! ## SHA-256 (as in Go's `crypto/sha256`) -/

def w32 (n : Nat) : Nat := n % 4294967296

def rotr32 (x n : Nat) : Nat := w32 ((x >>> n) ||| (x <<< (32 - n)))

def K256 : Array Nat := #[
  1116352408, 1899447441, 3049323471, 3921009573, 961987163, 1508970993,
  2453635748, 2870763221, 3624381080, 310598401, 607225278, 1426881987,
  1925078388, 2162078206, 2614888103, 3248222580, 3835390401, 4022224774,
  264347078, 604807628, 770255983, 1249150122, 1555081692, 1996064986,
  2554220882, 2821834349, 2952996808, 3210313671, 3336571891, 3584528711,
  113926993, 338241895, 666307205, 773529912, 1294757372, 1396182291,
  1695183700, 1986661051, 2177026350, 2456956037, 2730485921, 2820302411,
  3259730800, 3345764771, 3516065817, 3600352804, 4094571909, 275423344,
  430227734, 506948616, 659060556, 883997877, 958139571, 1322822218,
  1537002063, 1747873779, 1955562222, 2024104815, 2227730452, 2361852424,
  2428436474, 2756734187, 3204031479, 3329325298]

/-- Split the padded message into blocks of `sz` bytes. -/
def blocksAux (sz : Nat) : Nat → List Nat → List (List Nat)
  | 0, _ => []
  | _ + 1, [] => []
  | fuel + 1, bs => bs.take sz :: blocksAux sz fuel (bs.drop sz)

def blocks (sz : Nat) (bs : List Nat) : List (List Nat) :=
  blocksAux sz bs.length bs

/-- Merkle–Damgård padding: append `0x80`, zeros, and the 8-byte (for
SHA-256) or 16-byte (for SHA-512) big-endian bit length. -/
def shaPad (blockSize lenBytes : Nat) (msg : List Nat) : List Nat :=
  let l := msg.length
  let k := (blockSize - lenBytes + (blockSize - (l + 1) % blockSize)) % blockSize
  msg ++ 0x80 :: List.replicate k 0 ++ toBE lenBytes (8 * l)

/-- Running hash state: eight words `a..h`. -/
structure Hash8 where
  a : Nat
  b : Nat
  c : Nat
  d : Nat
  e : Nat
  f : Nat
  g : Nat
  h : Nat
deriving Repr, DecidableEq

def sha256H0 : Hash8 :=
  ⟨1779033703, 3144134277, 1013904242, 2773480762, 1359893119, 2600822924,
   528734635, 1541459225⟩

/-- Message schedule: extend the 16 block words to 64. -/
def sha256sched (ws0 : Array Nat) : Array Nat :=
  (List.range 48).foldl (fun ws i =>
    let t := i + 16
    let x15 := ws.getD (t - 15) 0
    let x2 := ws.getD (t - 2) 0
    let s0 := (rotr32 x15 7) ^^^ (rotr32 x15 18) ^^^ (x15 >>> 3)
    let s1 := (rotr32 x2 17) ^^^ (rotr32 x2 19) ^^^ (x2 >>> 10)
    ws.push (w32 (ws.getD (t - 16) 0 + s0 + ws.getD (t - 7) 0 + s1))) ws0

def sha256compress (st : Hash8) (block : List Nat) : Hash8 :=
  let ws := sha256sched (Array.mk ((blocks 4 block).map beWord))
  let r := (List.range 64).foldl (fun (s : Hash8) i =>
    let s1 := (rotr32 s.e 6) ^^^ (rotr32 s.e 11) ^^^ (rotr32 s.e 25)
    let ch := (s.e &&& s.f) ^^^ ((4294967295 - s.e) &&& s.g)
    let t1 := w32 (s.h + s1 + ch + K256.getD i 0 + ws.getD i 0)
    let s0 := (rotr32 s.a 2) ^^^ (rotr32 s.a 13) ^^^ (rotr32 s.a 22)
    let mj := (s.a &&& s.b) ^^^ (s.a &&& s.c) ^^^ (s.b &&& s.c)
    let t2 := w32 (s0 + mj)
    ⟨w32 (t1 + t2), s.a, s.b, s.c, w32 (s.d + t1), s.e, s.f, s.g⟩) st
  ⟨w32 (st.a + r.a), w32 (st.b + r.b), w32 (st.c + r.c), w32 (st.d + r.d),
   w32 (st.e + r.e), w32 (st.f + r.f), w32 (st.g + r.g), w32 (st.h + r.h)⟩

/-- SHA-256 digest (32 bytes) of a byte string. -/
def sha256 (msg : List Nat) : List Nat :=
  let st := (blocks 64 (shaPad 64 8 msg)).foldl sha256compress sha256H0
  [st.a, st.b, st.c, st.d, st.e, st.f, st.g, st.h].foldr
    (fun x acc => toBE 4 x ++ acc) []

/-! ## SHA-512 (as in Go's `crypto/sha512`) -/

def w64 (n : Nat) : Nat := n % 18446744073709551616

def rotr64 (x n : Nat) : Nat := w64 ((x >>> n) ||| (x <<< (64 - n)))

def K512 : Array Nat := #[
  4794697086780616226, 8158064640168781261, 13096744586834688815, 16840607885511220156,
  4131703408338449720, 6480981068601479193, 10538285296894168987, 12329834152419229976,
  15566598209576043074, 1334009975649890238, 2608012711638119052, 6128411473006802146,
  8268148722764581231, 9286055187155687089, 11230858885718282805, 13951009754708518548,
  16472876342353939154, 17275323862435702243, 1135362057144423861, 2597628984639134821,
  3308224258029322869, 5365058923640841347, 6679025012923562964, 8573033837759648693,
  10970295158949994411, 12119686244451234320, 12683024718118986047, 13788192230050041572,
  14330467153632333762, 15395433587784984357, 489312712824947311, 1452737877330783856,
  2861767655752347644, 3322285676063803686, 5560940570517711597, 5996557281743188959,
  7280758554555802590, 8532644243296465576, 9350256976987008742, 10552545826968843579,
  11727347734174303076, 12113106623233404929, 14000437183269869457, 14369950271660146224,
  15101387698204529176, 15463397548674623760, 17586052441742319658, 1182934255886127544,
  1847814050463011016, 2177327727835720531, 2830643537854262169, 3796741975233480872,
  4115178125766777443, 5681478168544905931, 6601373596472566643, 7507060721942968483,
  8399075790359081724, 8693463985226723168, 9568029438360202098, 10144078919501101548,
  10430055236837252648, 11840083180663258601, 13761210420658862357, 14299343276471374635,
  14566680578165727644, 15097957966210449927, 16922976911328602910, 17689382322260857208,
  500013540394364858, 748580250866718886, 1242879168328830382, 1977374033974150939,
  2944078676154940804, 3659926193048069267, 4368137639120453308, 4836135668995329356,
  5532061633213252278, 6448918945643986474, 6902733635092675308, 7801388544844847127]

def sha512H0 : Hash8 :=
  ⟨7640891576956012808, 13503953896175478587, 4354685564936845355,
   11912009170470909681, 5840696475078001361, 11170449401992604703,
   2270897969802886507, 6620516959819538809⟩

def sha512sched (ws0 : Array Nat) : Array Nat :=
  (List.range 64).foldl (fun ws i =>
    let t := i + 16
    let x15 := ws.getD (t - 15) 0
    let x2 := ws.getD (t - 2) 0
    let s0 := (rotr64 x15 1) ^^^ (rotr64 x15 8) ^^^ (x15 >>> 7)
    let s1 := (rotr64 x2 19) ^^^ (rotr64 x2 61) ^^^ (x2 >>> 6)
    ws.push (w64 (ws.getD (t - 16) 0 + s0 + ws.getD (t - 7) 0 + s1))) ws0

def sha512compress (st : Hash8) (block : List Nat) : Hash8 :=
  let ws := sha512sched (Array.mk ((blocks 8 block).map beWord))
  let r := (List.range 80).foldl (fun (s : Hash8) i =>
    let s1 := (rotr64 s.e 14) ^^^ (rotr64 s.e 18) ^^^ (rotr64 s.e 41)
    let ch := (s.e &&& s.f) ^^^ ((18446744073709551615 - s.e) &&& s.g)
    let t1 := w64 (s.h + s1 + ch + K512.getD i 0 + ws.getD i 0)
    let s0 := (rotr64 s.a 28) ^^^ (rotr64 s.a 34) ^^^ (rotr64 s.a 39)
    let mj := (s.a &&& s.b) ^^^ (s.a &&& s.c) ^^^ (s.b &&& s.c)
    let t2 := w64 (s0 + mj)
    ⟨w64 (t1 + t2), s.a, s.b, s.c, w64 (s.d + t1), s.e, s.f, s.g⟩) st
  ⟨w64 (st.a + r.a), w64 (st.b + r.b), w64 (st.c + r.c), w64 (st.d + r.d),
   w64 (st.e + r.e), w64 (st.f + r.f), w64 (st.g + r.g), w64 (st.h + r.h)⟩

/-- SHA-512 digest (64 bytes) of a byte string. -/
def sha512 (msg : List Nat) : List Nat :=
  let st := (blocks 128 (shaPad 128 16 msg)).foldl sha512compress sha512H0
  [st.a, st.b, st.c, st.d, st.e, st.f, st.g, st.h].foldr
    (fun x acc => toBE 8 x ++ acc) []

/-! ## HMAC, PBKDF2 and base64 -/

/-- HMAC (RFC 2104) generic in the hash function and its block size;
models Go's `crypto/hmac`. -/
def hmac (hash : List Nat → List Nat) (blockSize : Nat) (key msg : List Nat) :
    List Nat :=
  let k0 := if blockSize < key.length then hash key else key
  let k := k0 ++ List.replicate (blockSize - k0.length) 0
  let ipad := k.map (fun b => b ^^^ 0x36)
  let opad := k.map (fun b => b ^^^ 0x5c)
  hash (opad ++ hash (ipad ++ msg))

def hmacSha256 (key msg : List Nat) : List Nat := hmac sha256 64 key msg

def hmacSha512 (key msg : List Nat) : List Nat := hmac sha512 128 key msg

/-- `U_1 ⊕ ... ⊕ U_c` chain of PBKDF2 (RFC 2898): iterate the PRF and xor. -/
def pbkdf2Iter (prf : List Nat → List Nat) : Nat → List Nat → List Nat → List Nat
  | 0, _, acc => acc
  | n + 1, u, acc =>
    let u' := prf u
    pbkdf2Iter prf n u' (xorBytes acc u')

def pbkdf2Block (prf : List Nat → List Nat) (salt : List Nat) (iter i : Nat) :
    List Nat :=
  let u1 := prf (salt ++ toBE 4 i)
  pbkdf2Iter prf (iter - 1) u1 u1

/-- PBKDF2 (RFC 2898) with PRF `prf` of output length `hLen`; models
`golang.org/x/crypto/pbkdf2.Key`. -/
def pbkdf2 (prf : List Nat → List Nat) (hLen : Nat) (salt : List Nat)
    (iter dkLen : Nat) : List Nat :=
  let nblocks := (dkLen + hLen - 1) / hLen
  (((List.range nblocks).map (fun i => pbkdf2Block prf salt iter (i + 1))).foldr
    (· ++ ·) []).take dkLen

def base64Alphabet : List Char :=
  "ABCDEFGHIJKLMNOPQRSTUVWXYZabcdefghijklmnopqrstuvwxyz0123456789+/".data

def b64char (n : Nat) : Char := base64Alphabet.getD n 'A'

def base64Group : List Nat → List Char
  | [] => []
  | [a] => [b64char (a / 4), b64char (a % 4 * 16), '=', '=']
  | [a, b] => [b64char (a / 4), b64char (a % 4 * 16 + b / 16), b64char (b % 16 * 4), '=']
  | a :: b :: c :: rest =>
    b64char (a / 4) :: b64char (a % 4 * 16 + b / 16) ::
      b64char (b % 16 * 4 + c / 64) :: b64char (c % 64) :: base64Group rest

/-- Standard base64 encoding with padding; models Go's
`base64.StdEncoding.EncodeToString`. -/
def base64Encode (bs : List Nat) : String := ⟨base64Group bs⟩

/-! ## Handshake key derivation and challenge hashes -/

/-- The session key as computed by `onEventHello` (wattpilot.go:199-200):
`base64(pbkdf2(password, serial, 100000 iterations, 256 bytes, SHA-512))[:32]`. -/
@[irreducible] def sessionKey (password serial : String) : String :=
  let pwdData := pbkdf2 (hmacSha512 (strBytes password)) 64 (strBytes serial) 100000 256
  (base64Encode pwdData).take 32

/-- The session key as the specification words it (spec §4.1): "derive a
256-byte keystream using password-based key derivation (100,000 iterations,
SHA-512 as the underlying hash), base64-encode it, and take the first 32
characters". -/
@[irreducible] def specSessionKey (secret serial : String) : String :=
  (base64Encode
    (pbkdf2 (hmacSha512 (strBytes secret)) 64 (strBytes serial) 100000 256)).take 32

/-- Modelled from the spec: the repository's `sha256sum` helper is not under
`src/`; per spec §4.1 the challenge hashes are SHA-256 digests of string
concatenations that are themselves concatenated into further preimages, so
the helper returns the lowercase-hex digest of its argument's bytes. -/
def sha256sum (s : String) : String := hexEncode (sha256 (strBytes s))

/-- Modelled from the spec: the repository's `randomHexString` helper is not
under `src/`; per spec §4.1 it "must produce a uniformly distributed
32-hex-character value per handshake attempt".  The entropy source is made
explicit as a stream of nibbles. -/
def randomHexString (rand : Nat → Fin 16) (n : Nat) : String :=
  ⟨(List.range n).map (fun i => hexDigitChar (rand i))⟩

/-- The auth hash chain of spec §4.1:
`hash1 = SHA256(token1 + sessionKey)`, `authHash = SHA256(token3 + token2 + hash1)`. -/
def specAuthHash (token1 token2 token3 sKey : String) : String :=
  sha256sum (token3 ++ token2 ++ sha256sum (token1 ++ sKey))

/-! ## Dynamically typed Go values

Outbound message values (`GoVal`) are the scalar union of the spec's data
model §3 — boolean, number, or string — with Go's `int`/`int64` kept apart
from `float64` because `transformValue` switches on the dynamic type.
Inbound JSON values (`JVal`) additionally contain nested objects
(`fullStatus` carries a `status` object). -/

inductive GoVal where
  | int (i : ℤ)
  | float (q : ℚ)
  | bool (b : Bool)
  | str (s : String)
deriving Repr, DecidableEq

inductive JVal where
  | num (q : ℚ)
  | bool (b : Bool)
  | str (s : String)
  | obj (fields : List (String × JVal))
deriving Repr

/-- An inbound JSON message, as produced by `json.Unmarshal` into
`map[string]interface{}` (represented as a key/value list). -/
def JObj : Type := List (String × JVal)

/-- Modelled from the spec: the repository's `hasKey` helper is not under
`src/`; it tests presence of a key in a decoded message map. -/
def hasKey (m : JObj) (k : String) : Bool :=
  (List.lookup k m).isSome

def jLookup (m : JObj) (k : String) : Option JVal := List.lookup k m

/-! ## JSON wire encoding (Go's `encoding/json` on flat maps)

Every message this client transmits is a flat `map[string]interface{}` with
scalar values; `json.Marshal` renders it with keys in sorted byte order and
HTML-escaping on.  `float64` values are modelled as rationals and rendered
in plain decimal (every finite float64 has a terminating decimal
expansion); special values (NaN, infinities) are outside the model. -/

def isDigitC (c : Char) : Bool := '0' ≤ c && c ≤ '9'

def dval (c : Char) : Nat := c.toNat - 48

def renderNatAux : Nat → Nat → List Char
  | 0, _ => []
  | fuel + 1, n => if n = 0 then [] else renderNatAux fuel (n / 10) ++ [hexDigitChar (n % 10)]

def renderNat (n : Nat) : List Char :=
  if n = 0 then ['0'] else renderNatAux n n

def renderInt (i : ℤ) : List Char :=
  if i < 0 then '-' :: renderNat i.natAbs else renderNat i.natAbs

/-- Decimal representation of an `Int`, as Go's `fmt.Sprintf("%d", ...)`. -/
def intStr (i : ℤ) : String := ⟨renderInt i⟩

/-- The least `k ≤ 1200` with `q * 10^k` integral (any finite float64 needs
at most 1075 fractional bits, hence at most 1075 decimal digits). -/
def decExpQ (q : ℚ) : Option Nat :=
  (List.range 1200).find? (fun k => (10 ^ k) % q.den == 0)

def padZeros (k : Nat) (ds : List Char) : List Char :=
  List.replicate (k - ds.length) '0' ++ ds

/-- Plain-decimal rendering of a non-integral rational. -/
def renderQ (q : ℚ) : List Char :=
  match decExpQ q with
  | some k =>
    let m := (q * 10 ^ k).num.natAbs
    let sign : List Char := if q < 0 then ['-'] else []
    if k = 0 then sign ++ renderNat m
    else sign ++ renderNat (m / 10 ^ k) ++ '.' :: padZeros k (renderNat (m % 10 ^ k))
  | none => ['0']

/-- Go `encoding/json` string escaping (HTML escaping on, as in the default
encoder used by `json.Marshal`). -/
def escapeChar (c : Char) : List Char :=
  if c = '"' then ['\\', '"']
  else if c = '\\' then ['\\', '\\']
  else if c = '\n' then ['\\', 'n']
  else if c = '\r' then ['\\', 'r']
  else if c = '\t' then ['\\', 't']
  else if c.toNat < 0x20 ∨ c = '<' ∨ c = '>' ∨ c = '&' then
    '\\' :: 'u' :: '0' :: '0' :: hexDigitChar (c.toNat / 16) :: [hexDigitChar (c.toNat % 16)]
  else if c.toNat = 0x2028 ∨ c.toNat = 0x2029 then
    '\\' :: 'u' :: '2' :: '0' :: '2' :: [hexDigitChar (c.toNat % 16)]
  else [c]

def renderStr (s : String) : List Char :=
  '"' :: (s.data.foldr (fun c acc => escapeChar c ++ acc) []) ++ ['"']

def renderVal : GoVal → List Char
  | GoVal.int i => renderInt i
  | GoVal.float q => if q.den = 1 then renderInt q.num else renderQ q
  | GoVal.bool true => ['t', 'r', 'u', 'e']
  | GoVal.bool false => ['f', 'a', 'l', 's', 'e']
  | GoVal.str s => renderStr s

/-- Lexicographic byte order on strings (UTF-8 byte order coincides with
codepoint order), the order in which `json.Marshal` emits map keys. -/
def charListLt : List Char → List Char → Bool
  | [], [] => false
  | [], _ :: _ => true
  | _ :: _, [] => false
  | x :: xs, y :: ys =>
    if x.toNat < y.toNat then true
    else if y.toNat < x.toNat then false
    else charListLt xs ys

def strLtB (a b : String) : Bool := charListLt a.data b.data

def insertField (f : String × GoVal) : List (String × GoVal) → List (String × GoVal)
  | [] => [f]
  | g :: t => if strLtB g.1 f.1 then g :: insertField f t else f :: g :: t

/-- Stable insertion sort by key. -/
def sortFields : List (String × GoVal) → List (String × GoVal)
  | [] => []
  | f :: t => insertField f (sortFields t)

def renderFields : List (String × GoVal) → List Char
  | [] => []
  | [(k, v)] => renderStr k ++ ':' :: renderVal v
  | (k, v) :: rest => renderStr k ++ ':' :: renderVal v ++ ',' :: renderFields rest

/-- `json.Marshal` of a flat `map[string]interface{}` with scalar values. -/
def jsonMarshalFlat (m : List (String × GoVal)) : String :=
  ⟨'{' :: renderFields (sortFields m) ++ ['}']⟩

/-! ## JSON parsing of flat objects (for the secure-envelope round trip) -/

def hexVal? (ch : Char) : Option Nat :=
  if isDigitC ch then some (dval ch)
  else if 'a' ≤ ch && ch ≤ 'f' then some (ch.toNat - 87)
  else if 'A' ≤ ch && ch ≤ 'F' then some (ch.toNat - 55)
  else none

def unescapeChar? (e : Char) : Option Char :=
  if e = '"' ∨ e = '\\' ∨ e = '/' then some e
  else if e = 'n' then some '\n'
  else if e = 'r' then some '\r'
  else if e = 't' then some '\t'
  else if e = 'b' then some (Char.ofNat 8)
  else if e = 'f' then some (Char.ofNat 12)
  else none

/-- Parse the body of a JSON string up to (and consuming) the closing quote;
returns the decoded characters and the remaining input.  Each step consumes
at least one input character, so the input length bounds the recursion
(made explicit as fuel). -/
def parseStringBodyFuel : Nat → List Char → Option (List Char × List Char)
  | 0, _ => none
  | _ + 1, [] => none
  | fuel + 1, c :: rest =>
    if c = '"' then some ([], rest)
    else if c = '\\' then
      match rest with
      | 'u' :: h1 :: h2 :: h3 :: h4 :: rest2 =>
        match hexVal? h1, hexVal? h2, hexVal? h3, hexVal? h4 with
        | some a, some b, some c2, some d =>
          (parseStringBodyFuel fuel rest2).map
            (fun p => (Char.ofNat (((a * 16 + b) * 16 + c2) * 16 + d) :: p.1, p.2))
        | _, _, _, _ => none
      | e :: rest2 =>
        match unescapeChar? e with
        | some c2 => (parseStringBodyFuel fuel rest2).map (fun p => (c2 :: p.1, p.2))
        | none => none
      | [] => none
    else (parseStringBodyFuel fuel rest).map (fun p => (c :: p.1, p.2))

def parseStringBody (cs : List Char) : Option (List Char × List Char) :=
  parseStringBodyFuel (cs.length + 1) cs

def parseDigitsCnt : Nat → Nat → List Char → Nat × Nat × List Char
  | acc, k, [] => (acc, k, [])
  | acc, k, c :: cs =>
    if isDigitC c then parseDigitsCnt (acc * 10 + dval c) (k + 1) cs
    else (acc, k, c :: cs)

def parseExpBody : List Char → Option (ℚ × List Char)
  | '-' :: c :: cs =>
    if isDigitC c then
      let (e, _, r) := parseDigitsCnt 0 0 (c :: cs)
      some ((10 : ℚ) ^ (-(e : ℤ)), r)
    else none
  | '+' :: c :: cs =>
    if isDigitC c then
      let (e, _, r) := parseDigitsCnt 0 0 (c :: cs)
      some ((10 : ℚ) ^ (e : ℤ), r)
    else none
  | c :: cs =>
    if isDigitC c then
      let (e, _, r) := parseDigitsCnt 0 0 (c :: cs)
      some ((10 : ℚ) ^ (e : ℤ), r)
    else none
  | [] => none

/-- Continue a floating-point literal after its fraction digits: optional
exponent. -/
def parseAfterFrac (m : ℚ) : List Char → Option (GoVal × List Char)
  | c :: rest =>
    if c = 'e' ∨ c = 'E' then
      (parseExpBody rest).map (fun p => (GoVal.float (m * p.1), p.2))
    else some (GoVal.float m, c :: rest)
  | [] => some (GoVal.float m, [])

/-- Continue a number after its integer digits: optional fraction and
exponent.  A bare integer literal yields `GoVal.int`, anything with a
fraction or exponent yields `GoVal.float` — mirroring that a decoder only
sees numerals, not Go types. -/
def parseNumTail (ip : Nat) : List Char → Option (GoVal × List Char)
  | c :: rest =>
    if c = '.' then
      match rest with
      | c2 :: rest2 =>
        if isDigitC c2 then
          let r := parseDigitsCnt 0 0 (c2 :: rest2)
          parseAfterFrac ((ip : ℚ) + (r.1 : ℚ) / 10 ^ r.2.1) r.2.2
        else none
      | [] => none
    else if c = 'e' ∨ c = 'E' then
      (parseExpBody rest).map (fun p => (GoVal.float ((ip : ℚ) * p.1), p.2))
    else some (GoVal.int ip, c :: rest)
  | [] => some (GoVal.int ip, [])

def parseNumStart (cs : List Char) : Option (GoVal × List Char) :=
  let r := parseDigitsCnt 0 0 cs
  if r.2.1 = 0 then none else parseNumTail r.1 r.2.2

def negVal : GoVal → GoVal
  | GoVal.int i => GoVal.int (-i)
  | GoVal.float q => GoVal.float (-q)
  | v => v

def parseValue : List Char → Option (GoVal × List Char)
  | [] => none
  | c :: cs =>
    if c = '"' then (parseStringBody cs).map (fun p => (GoVal.str ⟨p.1⟩, p.2))
    else if c = 't' then
      match cs with
      | 'r' :: 'u' :: 'e' :: cs2 => some (GoVal.bool true, cs2)
      | _ => none
    else if c = 'f' then
      match cs with
      | 'a' :: 'l' :: 's' :: 'e' :: cs2 => some (GoVal.bool false, cs2)
      | _ => none
    else if c = '-' then (parseNumStart cs).map (fun p => (negVal p.1, p.2))
    else if isDigitC c then parseNumStart (c :: cs)
    else none

/-- Parse the fields of a flat object after the opening `{`. -/
def parseFieldsAux : Nat → List Char → Option (List (String × GoVal) × List Char)
  | 0, _ => none
  | fuel + 1, '"' :: cs1 =>
    match parseStringBody cs1 with
    | some (kchars, ':' :: cs3) =>
      match parseValue cs3 with
      | some (v, ',' :: cs5) =>
        (parseFieldsAux fuel cs5).map (fun p => ((⟨kchars⟩, v) :: p.1, p.2))
      | some (v, '}' :: cs5) => some ([(⟨kchars⟩, v)], cs5)
      | _ => none
    | _ => none
  | _ + 1, _ => none

/-- Parse a complete flat JSON object (the client's own wire frames). -/
def parseFlat (s : String) : Option (List (String × GoVal)) :=
  match s.data with
  | '{' :: cs =>
    match cs with
    | ['}'] => some []
    | _ =>
      match parseFieldsAux cs.length cs with
      | some (fs, []) => some fs
      | _ => none
  | _ => none

/-- A decoder sees only numerals: an integral `float64` re-reads as an
integer literal.  `canonVal` is the numeric normal form the parser returns. -/
def canonVal : GoVal → GoVal
  | GoVal.float q => if q.den = 1 then GoVal.int q.num else GoVal.float q
  | v => v

def canonFields (m : List (String × GoVal)) : List (String × GoVal) :=
  m.map (fun kv => (kv.1, canonVal kv.2))

/-- A value the plain-decimal renderer is exact for: every value except
floats whose denominator needs more than 1200 decimal digits (every finite
float64 is inside). -/
def renderableVal : GoVal → Bool
  | GoVal.float q => (decExpQ q).isSome
  | _ => true

def renderableFields (m : List (String × GoVal)) : Bool :=
  m.all (fun kv => renderableVal kv.2)

/-- Digit-fold with an accumulator (the value component computed by
`parseDigitsCnt`). -/
def digitsValFrom (acc : Nat) (cs : List Char) : Nat :=
  cs.foldl (fun a c => a * 10 + dval c) acc

/-- The input does not continue with a digit (so a digit scan stops). -/
def headNotDigit : List Char → Prop
  | [] => True
  | c :: _ => isDigitC c = false

/-- Keys appear in (weakly) ascending byte order. -/
def FieldsSorted (l : List (String × GoVal)) : Prop :=
  List.Chain' (fun a b : String × GoVal => strLtB b.1 a.1 = false) l

/-! ## Value coercion (`transformValue`, wattpilot.go:534-556) -/

/-- `fmt.Sprintf("%v", value)` on the modelled scalar universe. -/
def goSprint : GoVal → String
  | GoVal.int i => intStr i
  | GoVal.float q => ⟨renderVal (GoVal.float q)⟩
  | GoVal.bool true => "true"
  | GoVal.bool false => "false"
  | GoVal.str s => s

def parseSign : List Char → Bool × List Char
  | '-' :: cs => (true, cs)
  | '+' :: cs => (false, cs)
  | cs => (false, cs)

def allDigits (cs : List Char) : Bool := cs.all isDigitC

def digitsVal (cs : List Char) : Nat := cs.foldl (fun a c => a * 10 + dval c) 0

/-- Go's `strconv.Atoi`: optional sign, decimal digits, 64-bit range. -/
def atoi? (s : String) : Option ℤ :=
  let (neg, ds) := parseSign s.data
  if ds.isEmpty || !allDigits ds then none
  else
    let v : ℤ := if neg then -(digitsVal ds : ℤ) else (digitsVal ds : ℤ)
    if v < -(2 ^ 63) ∨ 2 ^ 63 - 1 < v then none else some v

/-- Go's `strconv.ParseBool`: the twelve accepted literals. -/
def parseBool? (s : String) : Option Bool :=
  if s = "1" ∨ s = "t" ∨ s = "T" ∨ s = "true" ∨ s = "TRUE" ∨ s = "True" then
    some true
  else if s = "0" ∨ s = "f" ∨ s = "F" ∨ s = "false" ∨ s = "FALSE" ∨ s = "False" then
    some false
  else none

/-- Go's `strconv.ParseFloat` restricted to finite decimal forms (optional
sign, digits with optional fraction, optional exponent); hexadecimal floats
and the NaN/Inf literals are outside the rational model. -/
def parseFloatQ? (s : String) : Option ℚ :=
  let (neg, cs0) := parseSign s.data
  let (ip, ipn, cs1) := parseDigitsCnt 0 0 cs0
  let (fp, fn, cs2) :=
    match cs1 with
    | '.' :: r => parseDigitsCnt 0 0 r
    | _ => (0, 0, cs1)
  if ipn + fn = 0 then none
  else
    let m : ℚ := (ip : ℚ) + (fp : ℚ) / 10 ^ fn
    match cs2 with
    | [] => some (if neg then -m else m)
    | 'e' :: r =>
      match parseExpBody r with
      | some (e, []) => some (if neg then -(m * e) else m * e)
      | _ => none
    | 'E' :: r =>
      match parseExpBody r with
      | some (e, []) => some (if neg then -(m * e) else m * e)
      | _ => none
    | _ => none

/-- `transformValue` (wattpilot.go:534-556): values already of integer or
floating-point type are returned unchanged; anything else is formatted with
`%v` and coerced by trying `Atoi`, then `ParseBool`, then `ParseFloat`, else
kept as the string. -/
def transformValue : GoVal → GoVal
  | GoVal.int i => GoVal.int i
  | GoVal.float q => GoVal.float q
  | v =>
    let inValue := goSprint v
    match atoi? inValue with
    | some outValue => GoVal.int outValue
    | none =>
      match parseBool? inValue with
      | some outValue => GoVal.bool outValue
      | none =>
        match parseFloatQ? inValue with
        | some outValue => GoVal.float outValue
        | none => GoVal.str inValue

/-- Coercion as the claim words it: "the coercion of the input to the
narrowest applicable wire type, trying integer first, else boolean, else
floating point, else string, in exactly that priority order", applied to
every input value.  An integral number's narrowest wire type is the
integer; a boolean's is the boolean. -/
def specCoerce : GoVal → GoVal
  | GoVal.int i => GoVal.int i
  | GoVal.float q => if q.den = 1 then GoVal.int q.num else GoVal.float q
  | GoVal.bool b => GoVal.bool b
  | GoVal.str s =>
    match atoi? s with
    | some i => GoVal.int i
    | none =>
      match parseBool? s with
      | some b => GoVal.bool b
      | none =>
        match parseFloatQ? s with
        | some q => GoVal.float q
        | none => GoVal.str s

/-! ## Session state (the mutable fields of `Wattpilot`, wattpilot.go:36-68)

Channels (`connected`, `initialized`, `_sendResponse`, `_interrupt`) are
synchronisation points, not data; their sends appear as handler outcomes.
`currentConnection` is `Option Unit`: present or `nil`. -/

structure SessionState where
  requestId : ℤ
  secured : Bool
  name : String
  hostname : String
  serial : String
  version : String
  manufacturer : String
  devicetype : String
  protocol : ℚ
  token3 : String
  hashedpassword : String
  host : String
  password : String
  isInitialized : Bool
  isConnected : Bool
  status : List (String × JVal)
  currentConnection : Option Unit

/-- The zero session of `New` (wattpilot.go:70-120). -/
def newSession (host password : String) : SessionState :=
  { requestId := 0
    secured := false
    name := ""
    hostname := ""
    serial := ""
    version := ""
    manufacturer := ""
    devicetype := ""
    protocol := 0
    token3 := ""
    hashedpassword := ""
    host := host
    password := password
    isInitialized := false
    isConnected := false
    status := []
    currentConnection := none }

def jStr? : JVal → Option String
  | JVal.str s => some s
  | _ => none

def jBool? : JVal → Option Bool
  | JVal.bool b => some b
  | _ => none

def jNum? : JVal → Option ℚ
  | JVal.num q => some q
  | _ => none

def jObj? : JVal → Option (List (String × JVal))
  | JVal.obj o => some o
  | _ => none

/-- A required field read through a Go type assertion `m[k].(string)`:
absence or a wrong dynamic type panics (`none`). -/
def assertStr (m : JObj) (k : String) : Option String :=
  (jLookup m k).bind jStr?

def assertBool (m : JObj) (k : String) : Option Bool :=
  (jLookup m k).bind jBool?

def assertNum (m : JObj) (k : String) : Option ℚ :=
  (jLookup m k).bind jNum?

/-! ## Inbound event handlers -/

/-- `onEventHello` (wattpilot.go:176-202): record identity fields and derive
the session key.  `none` models a panic from a failed type assertion. -/
def onEventHello (message : JObj) (s : SessionState) : Option SessionState := do
  let s ← (if hasKey message "hostname" then
      (assertStr message "hostname").map (fun v => { s with hostname := v })
    else some s)
  let s ← (if hasKey message "friendly_name" then
      (assertStr message "friendly_name").map (fun v => { s with name := v })
    else some { s with name := s.hostname })
  let serial ← assertStr message "serial"
  let s := { s with serial := serial }
  let s ← (if hasKey message "version" then
      (assertStr message "version").map (fun v => { s with version := v })
    else some s)
  let manufacturer ← assertStr message "manufacturer"
  let devicetype ← assertStr message "devicetype"
  let protocol ← assertNum message "protocol"
  let s := { s with manufacturer, devicetype, protocol }
  let s ← (if hasKey message "secured" then
      (assertBool message "secured").map (fun v => { s with secured := v })
    else some s)
  some { s with hashedpassword := sessionKey s.password serial }

/-- `onEventAuthRequired` (wattpilot.go:204-221): compute the challenge
response and send it unsecured; afterwards `_isInitialized` is assigned
`err != nil`.  `rand` is the entropy stream of the client nonce, `sendErr`
whether the transport write failed.  Returns the new state and the auth
message that was sent. -/
def onEventAuthRequired (rand : Nat → Fin 16) (sendErr : Bool) (message : JObj)
    (s : SessionState) : Option (SessionState × List (String × GoVal)) := do
  let token1 ← assertStr message "token1"
  let token2 ← assertStr message "token2"
  let token3 := randomHexString rand 32
  let hash1 := sha256sum (token1 ++ s.hashedpassword)
  let hash := sha256sum (token3 ++ token2 ++ hash1)
  let response := [("type", GoVal.str "auth"), ("token3", GoVal.str token3),
    ("hash", GoVal.str hash)]
  some ({ s with token3 := token3, isInitialized := sendErr }, response)

/-- What `onEventResponse` does with an inbound `response` message. -/
inductive ResponseEffect where
  | panicEv
  | ignored
  | loggedFailure
  | delivered (payload : String)
deriving Repr, DecidableEq

/-- `onEventResponse` (wattpilot.go:248-265), translated branch for branch:
`mType` assertion, then `if ok && success.(bool) { return }`, then
`if !success.(bool) { log; return }`, then the `mType == "response"`
delivery into the `_sendResponse` channel. -/
def onEventResponse (message : JObj) : ResponseEffect :=
  match jLookup message "type" with
  | some (JVal.str mType) =>
    match jLookup message "success" with
    | none => ResponseEffect.panicEv
    | some success =>
      match jBool? success with
      | none => ResponseEffect.panicEv
      | some b =>
        if b then ResponseEffect.ignored
        else if !b then ResponseEffect.loggedFailure
        else if mType = "response" then
          match jLookup message "message" with
          | some (JVal.str payload) => ResponseEffect.delivered payload
          | _ => ResponseEffect.panicEv
        else ResponseEffect.ignored
  | _ => ResponseEffect.panicEv

/-- `updateStatus` (wattpilot.go:306-318): merge the `status` object of the
message into the store, last writer wins per key. -/
def statusInsert (st : List (String × JVal)) (k : String) (v : JVal) :
    List (String × JVal) :=
  if (List.lookup k st).isSome then
    st.map (fun kv => if kv.1 = k then (k, v) else kv)
  else st ++ [(k, v)]

def updateStatus (message : JObj) (s : SessionState) : Option SessionState := do
  let statusUpdates ← (jLookup message "status").bind jObj?
  some { s with status := statusUpdates.foldl (fun st kv => statusInsert st kv.1 kv.2) s.status }

/-- `onEventFullStatus` (wattpilot.go:279-298). -/
def onEventFullStatus (message : JObj) (s : SessionState) : Option SessionState := do
  let isPart ← assertBool message "partial"
  let s ← updateStatus message s
  if isPart then some s
  else if s.isInitialized then some s
  else some { s with isInitialized := true }

/-- `onEventDeltaStatus` (wattpilot.go:299-304). -/
def onEventDeltaStatus (message : JObj) (s : SessionState) : Option SessionState :=
  updateStatus message s

/-- `disconnectImpl` (wattpilot.go:337-355): a no-op unless initialized;
otherwise closes the connection, clears both flags and empties the status
store. -/
def disconnectImpl (s : SessionState) : SessionState :=
  if !s.isInitialized then s
  else
    { s with
      isInitialized := false
      isConnected := false
      currentConnection := none
      status := [] }

/-- `Disconnect` (wattpilot.go:330-335): clear the connected flag, run the
internal teardown, then block on `<-w._interrupt`.  The OS-interrupt channel
is modelled by the list of values available on it: with none, the receive
blocks forever. -/
inductive DisconnectResult where
  | blocked
  | returned (s : SessionState)

def Disconnect (s : SessionState) (interrupts : List Unit) : DisconnectResult :=
  let s1 := { s with isConnected := false }
  let s2 := disconnectImpl s1
  match interrupts with
  | [] => DisconnectResult.blocked
  | _ :: _ => DisconnectResult.returned s2

/-! ## Outbound path -/

/-- `onSendResponse` (wattpilot.go:223-246), returning the text frame that
is written to the websocket.  When `secured`, the inner message is
serialized, authenticated with HMAC-SHA256 under the session key, and
wrapped in a `securedMsg` envelope; `none` models the panic of
`message["requestId"].(int64)` on a message lacking an `int64` request id. -/
def onSendResponse (s : SessionState) (secured : Bool)
    (message : List (String × GoVal)) : Option String :=
  if secured then
    match List.lookup "requestId" message with
    | some (GoVal.int msgId) =>
      let payload := jsonMarshalFlat message
      let mac := hmacSha256 (strBytes s.hashedpassword) (strBytes payload)
      some (jsonMarshalFlat
        [("type", GoVal.str "securedMsg"),
         ("data", GoVal.str payload),
         ("requestId", GoVal.str (intStr msgId ++ "sm")),
         ("hmac", GoVal.str (hexEncode mac))])
    | _ => none
  else some (jsonMarshalFlat message)

/-- `getRequestId` (wattpilot.go:172-174): atomic increment, returns the
incremented value. -/
def getRequestId (s : SessionState) : SessionState × ℤ :=
  ({ s with requestId := s.requestId + 1 }, s.requestId + 1)

/-- `sendUpdate` (wattpilot.go:558-567). -/
def sendUpdate (s : SessionState) (name : String) (value : GoVal) :
    SessionState × Option String :=
  let (s', rid) := getRequestId s
  let message := [("type", GoVal.str "setValue"), ("requestId", GoVal.int rid),
    ("key", GoVal.str name), ("value", transformValue value)]
  (s', onSendResponse s' s.secured message)

/-! ## Public facade: property access -/

/-- An entry of the external `PostProcess` table: a wire key and a transform
(spec §6: post-processing-lookup(name) → (wire-key, transform function);
the Go transform's error return is discarded by `GetProperty`). -/
structure PostEntry where
  key : String
  f : JVal → JVal

inductive GetErr where
  | notReady
  | notFound (name : String)

/-- `GetProperty` (wattpilot.go:485-513), parameterised by the external
alias table `pm` (`propertyMap`) and post-processing table `pp`
(`PostProcess`), both generated code outside `src/`. -/
def GetProperty (pm : String → Option String) (pp : String → Option PostEntry)
    (s : SessionState) (name : String) : Except GetErr JVal :=
  if !s.isInitialized then Except.error GetErr.notReady
  else
    let origName := name
    let name1 := match pm name with
      | some v => v
      | none => name
    let name2 := match pp origName with
      | some m => m.key
      | none => name1
    match List.lookup name2 s.status with
    | none => Except.error (GetErr.notFound name2)
    | some value =>
      match pp origName with
      | some m => Except.ok (m.f value)
      | none => Except.ok value

/-- The key `GetProperty` actually reads: the alias-resolved name, overridden
by the post-processing entry's own wire key when one is registered. -/
def resolveKey (pm : String → Option String) (pp : String → Option PostEntry)
    (name : String) : String :=
  match pp name with
  | some m => m.key
  | none => (pm name).getD name

/-- The transform application of `GetProperty`. -/
def postApply (pp : String → Option PostEntry) (name : String) (v : JVal) : JVal :=
  match pp name with
  | some m => m.f v
  | none => v

/-- Alias resolution alone, as the spec's collaborator interface words it
(§6: alias-lookup(name) → wire-key). -/
def resolveAlias (pm : String → Option String) (name : String) : String :=
  (pm name).getD name

inductive SetOutcome where
  | notReady
  | notFound
  | update (s' : SessionState) (frame : Option String)

/-- `SetProperty` (wattpilot.go:515-532).  Note: the name is looked up in
the status store as given — unlike `GetProperty`, no alias resolution. -/
def SetProperty (s : SessionState) (name : String) (value : GoVal) : SetOutcome :=
  if !s.isInitialized then SetOutcome.notReady
  else if !(List.lookup name s.status).isSome then SetOutcome.notFound
  else
    let (s', frame) := sendUpdate s name value
    SetOutcome.update s' frame

/-! ## The event router's dispatch (wattpilot.go:104-114, 453-483) -/

inductive Event where
  | hello (msg : JObj)
  | authRequired (rand : Nat → Fin 16) (sendErr : Bool) (msg : JObj)
  | response (msg : JObj)
  | authSuccess (msg : JObj)
  | authError (msg : JObj)
  | fullStatus (msg : JObj)
  | deltaStatus (msg : JObj)
  | clearInverters (msg : JObj)
  | updateInverter (msg : JObj)

/-- The state effect of dispatching one inbound message to its handler
(`none` = the handler panics).  `authSuccess`/`authError` only signal the
connect-waiter channel; `clearInverters`/`updateInverter` only log. -/
def handleEvent : Event → SessionState → Option SessionState
  | Event.hello msg, s => onEventHello msg s
  | Event.authRequired rand sendErr msg, s =>
    (onEventAuthRequired rand sendErr msg s).map Prod.fst
  | Event.response msg, s =>
    match onEventResponse msg with
    | ResponseEffect.panicEv => none
    | _ => some s
  | Event.authSuccess _, s => some s
  | Event.authError _, s => some s
  | Event.fullStatus msg, s => onEventFullStatus msg s
  | Event.deltaStatus msg, s => onEventDeltaStatus msg s
  | Event.clearInverters _, s => some s
  | Event.updateInverter _, s => some s

/-! ## Concrete fixtures used by the instance theorems -/

/-- An all-zero nibble stream for the client nonce. -/
def exRand : Nat → Fin 16 := fun _ => ⟨0, by norm_num⟩

def exHelloMsg : JObj :=
  [("serial", JVal.str "S1"), ("manufacturer", JVal.str "M"),
   ("devicetype", JVal.str "D"), ("protocol", JVal.num 2)]

/-- The state `onEventHello exHelloMsg (newSession "h" "pw")` reaches. -/
def exHelloState : SessionState :=
  { newSession "h" "pw" with
    serial := "S1"
    manufacturer := "M"
    devicetype := "D"
    protocol := 2
    hashedpassword := sessionKey "pw" "S1" }

def exAuthMsg : JObj := [("token1", JVal.str "t1"), ("token2", JVal.str "t2")]

def exAuthState : SessionState :=
  { newSession "h" "pw" with hashedpassword := "KEY" }

def exFullStatusMsg : JObj :=
  [("partial", JVal.bool false), ("status", JVal.obj [("amp", JVal.num 6)])]

/-- A session after successful authentication holding one observed property. -/
def exLiveState : SessionState :=
  { newSession "host" "pw" with
    isInitialized := true
    isConnected := true
    serial := "S1"
    name := "N"
    hashedpassword := "SESSIONKEY"
    requestId := 7
    currentConnection := some ()
    status := [("wire", JVal.num 1), ("amp", JVal.num 6)] }

/-- An example alias table with one non-identity entry (the table itself is
generated code outside `src/`; per spec §1/§6 it maps friendly property
names to wire keys). -/
def exAliasMap : String → Option String :=
  fun n => if n = "friendly" then some "wire" else none

/-- An example post-processing table registering a transform for `power1`
with its own wire key (spec §6: post-processing-lookup(name) →
(wire-key, transform function)). -/
def exPostMap : String → Option PostEntry :=
  fun n => if n = "power1" then some ⟨"nrg", fun _ => JVal.num 7⟩ else none

def exGetState : SessionState :=
  { newSession "host" "pw" with
    isInitialized := true
    status := [("nrg", JVal.str "230,231,229"), ("wire", JVal.num 1)] }

/-- The spec's secure-envelope test message
`{type:"setValue", requestId:1, key:"amp", value:6}` (spec §8.6). -/
def exInnerMsg : List (String × GoVal) :=
  [("type", GoVal.str "setValue"), ("requestId", GoVal.int 1),
   ("key", GoVal.str "amp"), ("value", GoVal.int 6)]

/-!
# Helper lemmas
-/

/-- Inversion for the optional-field steps of `onEventHello`. -/
theorem step_if_map {α : Type} {c : Prop} [Decidable c] {x : Option α}
    {upd : α → SessionState} {dflt r : SessionState}
    (h : (if c then x.map upd else some dflt) = some r) :
    r = dflt ∨ ∃ v, r = upd v := by
  by_cases hc : c
  · rw [if_pos hc] at h
    cases x with
    | none => simp at h
    | some v => exact Or.inr ⟨v, by simpa using h.symm⟩
  · rw [if_neg hc] at h
    exact Or.inl (Option.some.inj h).symm

set_option maxRecDepth 2048 in
/-- Shape inversion for `onEventHello`: on success the handler has read the
serial, set it, and derived the session key from the stored password and
that serial; the initialized flag and the status store are untouched. -/
theorem onEventHello_shape {msg : JObj} {s s' : SessionState}
    (h : onEventHello msg s = some s') :
    ∃ serial, assertStr msg "serial" = some serial
      ∧ s'.serial = serial
      ∧ s'.hashedpassword = sessionKey s.password serial
      ∧ s'.isInitialized = s.isInitialized
      ∧ s'.isConnected = s.isConnected
      ∧ s'.status = s.status := by
  unfold onEventHello at h
  simp only [show @Bind.bind Option _ = @Option.bind from rfl] at h
  obtain ⟨s1, h1, h⟩ := Option.bind_eq_some.mp h
  obtain ⟨s2, h2, h⟩ := Option.bind_eq_some.mp h
  obtain ⟨serial, hserial, h⟩ := Option.bind_eq_some.mp h
  obtain ⟨s3, h3, h⟩ := Option.bind_eq_some.mp h
  obtain ⟨manufacturer, hman, h⟩ := Option.bind_eq_some.mp h
  obtain ⟨devicetype, hdev, h⟩ := Option.bind_eq_some.mp h
  obtain ⟨protocol, hpro, h⟩ := Option.bind_eq_some.mp h
  obtain ⟨s4, h4, h⟩ := Option.bind_eq_some.mp h
  refine ⟨serial, hserial, ?_⟩
  have e1 : s1.password = s.password ∧ s1.isInitialized = s.isInitialized
      ∧ s1.isConnected = s.isConnected ∧ s1.status = s.status := by
    rcases step_if_map h1 with rfl | ⟨v, rfl⟩ <;> exact ⟨rfl, rfl, rfl, rfl⟩
  have e2 : s2.password = s1.password ∧ s2.isInitialized = s1.isInitialized
      ∧ s2.isConnected = s1.isConnected ∧ s2.status = s1.status := by
    rcases step_if_map h2 with rfl | ⟨v, rfl⟩ <;> exact ⟨rfl, rfl, rfl, rfl⟩
  have e3 : s3.password = s2.password ∧ s3.isInitialized = s2.isInitialized
      ∧ s3.isConnected = s2.isConnected ∧ s3.status = s2.status
      ∧ s3.serial = serial := by
    rcases step_if_map h3 with rfl | ⟨v, rfl⟩ <;> exact ⟨rfl, rfl, rfl, rfl, rfl⟩
  have e4 : s4.password = s3.password ∧ s4.isInitialized = s3.isInitialized
      ∧ s4.isConnected = s3.isConnected ∧ s4.status = s3.status
      ∧ s4.serial = s3.serial := by
    rcases step_if_map h4 with rfl | ⟨v, rfl⟩ <;> exact ⟨rfl, rfl, rfl, rfl, rfl⟩
  have hs : s' = { s4 with hashedpassword := sessionKey s4.password serial } :=
    (Option.some.inj h).symm
  refine ⟨?_, ?_, ?_, ?_, ?_⟩
  · rw [hs]
    exact (e4.2.2.2.2).trans e3.2.2.2.2
  · rw [hs]
    show sessionKey s4.password serial = sessionKey s.password serial
    rw [e4.1, e3.1, e2.1, e1.1]
  · rw [hs]
    show s4.isInitialized = s.isInitialized
    rw [e4.2.1, e3.2.1, e2.2.1, e1.2.1]
  · rw [hs]
    show s4.isConnected = s.isConnected
    rw [e4.2.2.1, e3.2.2.1, e2.2.2.1, e1.2.2.1]
  · rw [hs]
    show s4.status = s.status
    rw [e4.2.2.2.1, e3.2.2.2.1, e2.2.2.2, e1.2.2.2]

/-- Shape inversion for `onEventAuthRequired`: on success both tokens were
read, the client nonce is stored, the initialized flag becomes the
send-error flag, and the auth message sent is exactly
`{type: "auth", token3, hash}` with the spec §4.1 hash chain. -/
theorem onEventAuthRequired_shape {rand : Nat → Fin 16} {sendErr : Bool}
    {msg : JObj} {s s' : SessionState} {resp : List (String × GoVal)}
    (h : onEventAuthRequired rand sendErr msg s = some (s', resp)) :
    ∃ token1 token2, assertStr msg "token1" = some token1
      ∧ assertStr msg "token2" = some token2
      ∧ s' = { s with token3 := randomHexString rand 32, isInitialized := sendErr }
      ∧ resp = [("type", GoVal.str "auth"),
          ("token3", GoVal.str (randomHexString rand 32)),
          ("hash", GoVal.str (specAuthHash token1 token2 (randomHexString rand 32)
              s.hashedpassword))] := by
  unfold onEventAuthRequired at h
  simp only [show @Bind.bind Option _ = @Option.bind from rfl] at h
  obtain ⟨token1, h1, h⟩ := Option.bind_eq_some.mp h
  obtain ⟨token2, h2, h⟩ := Option.bind_eq_some.mp h
  have hp := Option.some.inj h
  refine ⟨token1, token2, h1, h2, ?_, ?_⟩
  · exact (congrArg Prod.fst hp).symm
  · exact (congrArg Prod.snd hp).symm

/-- Shape inversion for `updateStatus`: the message carries a `status`
object whose entries are merged into the store; no other field changes. -/
theorem updateStatus_shape {msg : JObj} {s su : SessionState}
    (h : updateStatus msg s = some su) :
    ∃ upd, jLookup msg "status" = some (JVal.obj upd)
      ∧ su = { s with
          status := upd.foldl (fun st kv => statusInsert st kv.1 kv.2) s.status } := by
  unfold updateStatus at h
  simp only [show @Bind.bind Option _ = @Option.bind from rfl] at h
  obtain ⟨u, hu, h⟩ := Option.bind_eq_some.mp h
  obtain ⟨x, hx, hx2⟩ := Option.bind_eq_some.mp hu
  cases x with
  | obj fields =>
    refine ⟨fields, hx, ?_⟩
    cases Option.some.inj hx2
    exact (Option.some.inj h).symm
  | num q => simp [jObj?] at hx2
  | bool b => simp [jObj?] at hx2
  | str t => simp [jObj?] at hx2

/-- Shape inversion for `onEventFullStatus`. -/
theorem onEventFullStatus_shape {msg : JObj} {s s' : SessionState}
    (h : onEventFullStatus msg s = some s') :
    ∃ b su, assertBool msg "partial" = some b ∧ updateStatus msg s = some su
      ∧ s' = (if b then su
              else if su.isInitialized then su
              else { su with isInitialized := true }) := by
  unfold onEventFullStatus at h
  simp only [show @Bind.bind Option _ = @Option.bind from rfl] at h
  obtain ⟨b, hb, h⟩ := Option.bind_eq_some.mp h
  obtain ⟨su, hsu, h⟩ := Option.bind_eq_some.mp h
  refine ⟨b, su, hb, hsu, ?_⟩
  cases b with
  | true => simpa using (Option.some.inj h).symm
  | false =>
    rw [if_neg (by decide : ¬ (false = true))] at h ⊢
    by_cases hi : su.isInitialized = true
    · rw [if_pos hi] at h ⊢
      exact (Option.some.inj h).symm
    · rw [if_neg hi] at h ⊢
      exact (Option.some.inj h).symm

theorem lookup_cons_self (k : String) (v : JVal) (rest : List (String × JVal)) :
    List.lookup k ((k, v) :: rest) = some v := by
  simp [List.lookup]

theorem lookup_cons_ne {k k0 : String} (hne : k ≠ k0) (v0 : JVal)
    (rest : List (String × JVal)) :
    List.lookup k ((k0, v0) :: rest) = List.lookup k rest := by
  simp [List.lookup, show (k == k0) = false by simpa using hne]

/-- Replacing the value under key `k` leaves the lookup of `k` pointing at
the new value (when `k` was present). -/
theorem lookup_map_replace (k : String) (v : JVal) (st : List (String × JVal)) :
    List.lookup k (st.map (fun kv => if kv.1 = k then (k, v) else kv))
      = if (List.lookup k st).isSome then some v else none := by
  induction st with
  | nil => simp
  | cons a t ih =>
    obtain ⟨k0, v0⟩ := a
    simp only [List.map_cons]
    by_cases hk : k0 = k
    · subst hk
      rw [if_pos rfl, lookup_cons_self, lookup_cons_self]
      simp
    · rw [if_neg (by simpa using hk), lookup_cons_ne (fun hkk => hk hkk.symm),
        lookup_cons_ne (fun hkk => hk hkk.symm)]
      exact ih

/-- Inserting under key `k` makes the lookup of `k` return the new value. -/
theorem lookup_statusInsert_self (st : List (String × JVal)) (k : String) (v : JVal) :
    List.lookup k (statusInsert st k v) = some v := by
  unfold statusInsert
  by_cases h : (List.lookup k st).isSome
  · rw [if_pos h, lookup_map_replace, if_pos h]
  · rw [if_neg h]
    induction st with
    | nil => exact lookup_cons_self k v []
    | cons a t ih =>
      obtain ⟨k0, v0⟩ := a
      have hk : k ≠ k0 := by
        intro hc
        subst hc
        rw [lookup_cons_self] at h
        simp at h
      rw [List.cons_append, lookup_cons_ne hk]
      exact ih (by rwa [lookup_cons_ne hk] at h)

/-- Inserting under a different key does not change the lookup of `k`. -/
theorem lookup_statusInsert_other {k k' : String} (hne : k ≠ k')
    (st : List (String × JVal)) (v : JVal) :
    List.lookup k (statusInsert st k' v) = List.lookup k st := by
  unfold statusInsert
  by_cases h : (List.lookup k' st).isSome
  · rw [if_pos h]
    clear h
    induction st with
    | nil => simp
    | cons a t ih =>
      obtain ⟨k0, v0⟩ := a
      simp only [List.map_cons]
      by_cases hk0 : k0 = k'
      · subst hk0
        rw [if_pos rfl, lookup_cons_ne hne, lookup_cons_ne (by simpa using hne)]
        exact ih
      · rw [if_neg (by simpa using hk0)]
        by_cases hkk : k = k0
        · subst hkk
          rw [lookup_cons_self, lookup_cons_self]
        · rw [lookup_cons_ne hkk, lookup_cons_ne hkk]
          exact ih
  · rw [if_neg h]
    induction st with
    | nil => exact lookup_cons_ne hne v []
    | cons a t ih =>
      obtain ⟨k0, v0⟩ := a
      rw [List.cons_append]
      by_cases hkk : k = k0
      · subst hkk
        rw [lookup_cons_self, lookup_cons_self]
      · rw [lookup_cons_ne hkk, lookup_cons_ne hkk]
        by_cases hk0 : k' = k0
        · subst hk0
          rw [lookup_cons_self] at h
          simp at h
        · exact ih (by rwa [lookup_cons_ne hk0] at h)

/-- Folding a batch into the store preserves presence of any key. -/
theorem lookup_foldl_statusInsert_mono (upd : List (String × JVal))
    (st : List (String × JVal)) (k : String)
    (h : (List.lookup k st).isSome = true) :
    (List.lookup k (upd.foldl (fun st kv => statusInsert st kv.1 kv.2) st)).isSome
      = true := by
  induction upd generalizing st with
  | nil => exact h
  | cons a t ih =>
    obtain ⟨k0, v0⟩ := a
    simp only [List.foldl_cons]
    apply ih
    by_cases hk : k = k0
    · subst hk
      rw [lookup_statusInsert_self]
      rfl
    · rw [lookup_statusInsert_other hk]
      exact h

/-- After folding a batch into the store, every key of the batch is
present. -/
theorem lookup_foldl_statusInsert_mem (upd : List (String × JVal))
    (st : List (String × JVal)) (k : String)
    (h : (List.lookup k upd).isSome = true) :
    (List.lookup k (upd.foldl (fun st kv => statusInsert st kv.1 kv.2) st)).isSome
      = true := by
  induction upd generalizing st with
  | nil => simp [List.lookup] at h
  | cons a t ih =>
    obtain ⟨k0, v0⟩ := a
    simp only [List.foldl_cons]
    by_cases hk : k = k0
    · subst hk
      apply lookup_foldl_statusInsert_mono
      rw [lookup_statusInsert_self]
      rfl
    · apply ih
      rwa [lookup_cons_ne hk] at h

/-- Every hexadecimal nibble renders to one of the sixteen lowercase hex
digit characters. -/
theorem hexDigitChar_fin_mem :
    ∀ x : Fin 16, hexDigitChar x ∈ ("0123456789abcdef".data) := by
  decide

/-!
# Theorems

One theorem per claim of the specification audit, with instance theorems
applying the universally quantified ones at concrete inputs, and
counterexample theorems where the claim fails on the code.
-/

/-- C2 counter-evidence: an inbound `response` message with `success=true`
and inner type exactly `"response"` is *ignored* — its payload is never
handed to the single-slot channel, because `onEventResponse` returns as soon
as `ok && success.(bool)` holds (wattpilot.go:254-256), making the delivery
branch at wattpilot.go:261-263 unreachable.  A `success=false` message is
logged and dropped as the claim says. -/
theorem response_success_true_is_dropped :
    onEventResponse [("type", JVal.str "response"), ("success", JVal.bool true),
      ("message", JVal.str "payload")] = ResponseEffect.ignored
    ∧ onEventResponse [("type", JVal.str "response"), ("success", JVal.bool false),
      ("message", JVal.str "reason")] = ResponseEffect.loggedFailure := by
  exact ⟨rfl, rfl⟩

/-- C3: a well-formed `response` object that merely lacks the `success`
field makes `onEventResponse` evaluate `success.(bool)` on a nil interface
(wattpilot.go:257) — a run-time panic, contradicting the spec's "no error is
ever promoted to a crash". -/
theorem response_missing_success_panics :
    onEventResponse [("type", JVal.str "response")] = ResponseEffect.panicEv := by
  exact rfl

/-- C10: `Disconnect` clears the connected flag and performs the internal
teardown, but completes only by consuming a value from the OS-interrupt
channel (wattpilot.go:334): with no interrupt available it blocks forever,
and whenever it returns, a value was received and the result is exactly the
teardown of the connected-cleared state. -/
theorem disconnect_blocks_until_interrupt :
    (∀ s : SessionState, Disconnect s [] = DisconnectResult.blocked)
    ∧ ∀ (s : SessionState) (a : Unit) (t : List Unit),
        Disconnect s (a :: t) =
          DisconnectResult.returned (disconnectImpl { s with isConnected := false }) := by
  exact ⟨fun _ => rfl, fun _ _ _ => rfl⟩

/-- C5 counter-evidence: teardown of an initialized session empties the
status store and clears both flags, but the session key (`_hashedpassword`)
and the device identity (`_serial`, `_name`) keep their values — they are
never cleared (wattpilot.go:337-355) — and on a session that is not
initialized the teardown changes nothing at all, even if the status store is
non-empty and the connected flag is set. -/
theorem disconnectImpl_keeps_key_and_identity :
    (disconnectImpl exLiveState).status = []
    ∧ (disconnectImpl exLiveState).isConnected = false
    ∧ (disconnectImpl exLiveState).isInitialized = false
    ∧ (disconnectImpl exLiveState).hashedpassword = "SESSIONKEY"
    ∧ (disconnectImpl exLiveState).serial = "S1"
    ∧ (disconnectImpl exLiveState).name = "N"
    ∧ disconnectImpl { exLiveState with isInitialized := false } =
        { exLiveState with isInitialized := false } := by
  exact ⟨rfl, rfl, rfl, rfl, rfl, rfl, rfl⟩

/-- C5 amended: on an initialized session, `disconnectImpl` empties the
status store, clears the connected and initialized flags and drops the
connection handle, while the request-id counter, the session key and the
device identity fields all stay untouched (they live in the unchanged
fields of the record); on a session that is not initialized it is the
identity. -/
theorem disconnectImpl_frame_effect (s : SessionState) :
    disconnectImpl { s with isInitialized := true } =
      { s with
        isInitialized := false
        isConnected := false
        currentConnection := none
        status := [] }
    ∧ disconnectImpl { s with isInitialized := false } =
        { s with isInitialized := false } := by
  exact ⟨rfl, rfl⟩

/-- C4 counter-evidence: handling `authRequired` on a non-initialized
session whose auth-response send *fails* sets the initialized flag to true —
`w._isInitialized = (err != nil)` (wattpilot.go:220) — contradicting that
only a non-partial `fullStatus` can make that transition. -/
theorem authRequired_send_failure_sets_initialized :
    (newSession "h" "p").isInitialized = false
    ∧ (handleEvent (Event.authRequired exRand true exAuthMsg) (newSession "h" "p")).map
        SessionState.isInitialized = some true := by
  exact ⟨rfl, rfl⟩

/-- C4 amended: the initialized flag goes from false to true only by a
`fullStatus` whose `partial` field is false, or by an `authRequired` whose
auth-response send failed. -/
theorem initialized_transitions (e : Event) (s s' : SessionState)
    (h : handleEvent e s = some s')
    (h0 : s.isInitialized = false) (h1 : s'.isInitialized = true) :
    (∃ msg, e = Event.fullStatus msg ∧ assertBool msg "partial" = some false)
    ∨ (∃ rand msg, e = Event.authRequired rand true msg) := by
  cases e with
  | hello msg =>
    obtain ⟨serial, -, -, -, hinit, -, -⟩ := onEventHello_shape h
    rw [h0] at hinit
    rw [hinit] at h1
    exact absurd h1 (by decide)
  | authRequired rand sendErr msg =>
    obtain ⟨p, hp, hfst⟩ := Option.map_eq_some'.mp h
    obtain ⟨ps, pr⟩ := p
    obtain ⟨t1, t2, -, -, hps, -⟩ := onEventAuthRequired_shape hp
    cases sendErr with
    | false =>
      rw [← hfst] at h1
      rw [hps] at h1
      exact Bool.noConfusion h1
    | true => exact Or.inr ⟨rand, msg, rfl⟩
  | response msg =>
    cases hre : onEventResponse msg <;> rw [show handleEvent (Event.response msg) s =
        (match onEventResponse msg with
         | ResponseEffect.panicEv => none
         | _ => some s) from rfl, hre] at h
    · exact absurd h (by simp)
    all_goals
      rw [← Option.some.inj h] at h1
    all_goals
      rw [h0] at h1
    all_goals
      exact absurd h1 (by decide)
  | authSuccess msg =>
    rw [← Option.some.inj h, h0] at h1
    exact absurd h1 (by decide)
  | authError msg =>
    rw [← Option.some.inj h, h0] at h1
    exact absurd h1 (by decide)
  | fullStatus msg =>
    obtain ⟨b, su, hb, hsu, hs'⟩ := onEventFullStatus_shape h
    obtain ⟨upd, -, hsurec⟩ := updateStatus_shape hsu
    have hsuinit : su.isInitialized = false := by
      rw [hsurec]
      exact h0
    cases b with
    | true =>
      rw [if_pos rfl] at hs'
      rw [hs', hsuinit] at h1
      exact absurd h1 (by decide)
    | false => exact Or.inl ⟨msg, rfl, hb⟩
  | deltaStatus msg =>
    obtain ⟨upd, -, hsurec⟩ := updateStatus_shape h
    rw [hsurec] at h1
    rw [h0] at h1
    exact Bool.noConfusion h1
  | clearInverters msg =>
    rw [← Option.some.inj h, h0] at h1
    exact absurd h1 (by decide)
  | updateInverter msg =>
    rw [← Option.some.inj h, h0] at h1
    exact absurd h1 (by decide)

/-- C4 amended, instance: a non-partial `fullStatus` arriving on the fresh
session flips the flag, and the theorem classifies it. -/
theorem initialized_transitions_instance :
    (∃ msg, Event.fullStatus exFullStatusMsg = Event.fullStatus msg
        ∧ assertBool msg "partial" = some false)
    ∨ (∃ rand msg, Event.fullStatus exFullStatusMsg = Event.authRequired rand true msg) :=
  initialized_transitions (Event.fullStatus exFullStatusMsg) (newSession "h" "p")
    { newSession "h" "p" with
      status := [("amp", JVal.num 6)]
      isInitialized := true }
    rfl rfl rfl

/-- C1: handshake cryptography.  (i) The session key computed on `hello` is
the spec's key — the first 32 characters of the base64 encoding of
PBKDF2-HMAC-SHA512(secret, salt = serial, 100000 iterations, 256 bytes) —
derived from the stored shared password and the serial carried by the
message.  (ii) On `authRequired{token1, token2}` the client sends exactly
`{type: "auth", token3, hash}` with
`hash = SHA256(token3 + token2 + SHA256(token1 + sessionKey))` and a
32-character lowercase-hex nonce `token3`.  All outputs are functions of
(secret, serial, token1, token2, token3) alone, hence deterministic. -/
theorem handshake_crypto :
    (∀ pwd serial, sessionKey pwd serial = specSessionKey pwd serial)
    ∧ (∀ (msg : JObj) (s s' : SessionState), onEventHello msg s = some s' →
        ∃ serial, assertStr msg "serial" = some serial
          ∧ s'.serial = serial
          ∧ s'.hashedpassword = specSessionKey s.password serial)
    ∧ (∀ (rand : Nat → Fin 16) (sendErr : Bool) (msg : JObj)
        (s s' : SessionState) (resp : List (String × GoVal)),
        onEventAuthRequired rand sendErr msg s = some (s', resp) →
        ∃ token1 token2, assertStr msg "token1" = some token1
          ∧ assertStr msg "token2" = some token2
          ∧ resp = [("type", GoVal.str "auth"),
              ("token3", GoVal.str (randomHexString rand 32)),
              ("hash", GoVal.str (specAuthHash token1 token2
                  (randomHexString rand 32) s.hashedpassword))]
          ∧ (randomHexString rand 32).length = 32
          ∧ ∀ c ∈ (randomHexString rand 32).data, c ∈ ("0123456789abcdef".data)) := by
  refine ⟨?_, ?_, ?_⟩
  · intro pwd serial
    unfold sessionKey specSessionKey
    rfl
  · intro msg s s' h
    obtain ⟨serial, hser, h1, h2, -, -, -⟩ := onEventHello_shape h
    refine ⟨serial, hser, h1, ?_⟩
    rw [h2]
    unfold sessionKey specSessionKey
    rfl
  · intro rand sendErr msg s s' resp h
    obtain ⟨t1, t2, h1, h2, -, hresp⟩ := onEventAuthRequired_shape h
    refine ⟨t1, t2, h1, h2, hresp, rfl, ?_⟩
    intro c hc
    have : (randomHexString rand 32).data =
        (List.range 32).map (fun i => hexDigitChar (rand i)) := rfl
    rw [this] at hc
    obtain ⟨i, -, rfl⟩ := List.mem_map.mp hc
    exact hexDigitChar_fin_mem (rand i)

/-- C1 instance: the spec §8.7 scenario — `hello{serial:"S1",
manufacturer:"M", devicetype:"D", protocol:2}` followed by
`authRequired{token1:"t1", token2:"t2"}` on a fresh session with password
"pw" (resp. stored session key "KEY"). -/
theorem handshake_crypto_instance :
    (∃ serial, assertStr exHelloMsg "serial" = some serial
      ∧ exHelloState.serial = serial
      ∧ exHelloState.hashedpassword = specSessionKey "pw" serial)
    ∧ (∃ token1 token2, assertStr exAuthMsg "token1" = some token1
      ∧ assertStr exAuthMsg "token2" = some token2
      ∧ [("type", GoVal.str "auth"),
          ("token3", GoVal.str (randomHexString exRand 32)),
          ("hash", GoVal.str (specAuthHash "t1" "t2" (randomHexString exRand 32)
              "KEY"))]
        = [("type", GoVal.str "auth"),
            ("token3", GoVal.str (randomHexString exRand 32)),
            ("hash", GoVal.str (specAuthHash token1 token2
                (randomHexString exRand 32) exAuthState.hashedpassword))]
      ∧ (randomHexString exRand 32).length = 32
      ∧ ∀ c ∈ (randomHexString exRand 32).data, c ∈ ("0123456789abcdef".data)) := by
  constructor
  · exact handshake_crypto.2.1 exHelloMsg (newSession "h" "pw") exHelloState rfl
  · obtain ⟨t1, t2, h1, h2, hresp, hlen, hhex⟩ :=
      handshake_crypto.2.2 exRand true exAuthMsg exAuthState
        { exAuthState with
          token3 := randomHexString exRand 32
          isInitialized := true }
        [("type", GoVal.str "auth"),
         ("token3", GoVal.str (randomHexString exRand 32)),
         ("hash", GoVal.str (specAuthHash "t1" "t2" (randomHexString exRand 32) "KEY"))]
        rfl
    exact ⟨t1, t2, h1, h2, hresp, hlen, hhex⟩

/-- C6 counter-evidence: `SetProperty` checks the *given* name against the
status store without resolving it through the alias table
(wattpilot.go:526, contrast `GetProperty` at 494): with the alias
`friendly → wire` and the wire key `wire` observed in the store,
`SetProperty "friendly"` still fails with NotFound. -/
theorem setProperty_ignores_alias :
    SetProperty exLiveState "friendly" (GoVal.int 6) = SetOutcome.notFound
    ∧ resolveAlias exAliasMap "friendly" = "wire"
    ∧ List.lookup (resolveAlias exAliasMap "friendly") exLiveState.status
        = some (JVal.num 1) := by
  exact ⟨rfl, rfl, rfl⟩

/-- C6 amended: `SetProperty` fails NotReady when not initialized; when
initialized it fails NotFound exactly when the *unresolved* name has never
been observed in the status store; when the name is present it increments
the request id and sends the `setValue` command; and once any inbound batch
contains the name, a subsequent `SetProperty` on it reaches the send
(write-after-observe holds for the literal name). -/
theorem setProperty_effect (s : SessionState) (name : String) (value : GoVal) :
    (s.isInitialized = false → SetProperty s name value = SetOutcome.notReady)
    ∧ (s.isInitialized = true → List.lookup name s.status = none →
        SetProperty s name value = SetOutcome.notFound)
    ∧ (∀ v0, s.isInitialized = true → List.lookup name s.status = some v0 →
        SetProperty s name value =
          SetOutcome.update { s with requestId := s.requestId + 1 }
            (onSendResponse { s with requestId := s.requestId + 1 } s.secured
              [("type", GoVal.str "setValue"),
               ("requestId", GoVal.int (s.requestId + 1)),
               ("key", GoVal.str name), ("value", transformValue value)]))
    ∧ (∀ (msg : JObj) (s' : SessionState) (upd : List (String × JVal)),
        updateStatus msg s = some s' →
        s'.isInitialized = true →
        jLookup msg "status" = some (JVal.obj upd) →
        (List.lookup name upd).isSome = true →
        ∃ s'' frame, SetProperty s' name value = SetOutcome.update s'' frame) := by
  have hsend : ∀ (s2 : SessionState), s2.isInitialized = true →
      (List.lookup name s2.status).isSome = true →
      SetProperty s2 name value =
        SetOutcome.update { s2 with requestId := s2.requestId + 1 }
          (onSendResponse { s2 with requestId := s2.requestId + 1 } s2.secured
            [("type", GoVal.str "setValue"),
             ("requestId", GoVal.int (s2.requestId + 1)),
             ("key", GoVal.str name), ("value", transformValue value)]) := by
    intro s2 hinit hsome
    unfold SetProperty
    rw [if_neg (by simp [hinit]), if_neg (by simp [hsome])]
    rfl
  refine ⟨?_, ?_, ?_, ?_⟩
  · intro h
    unfold SetProperty
    rw [if_pos (by simp [h])]
  · intro hinit hnone
    unfold SetProperty
    rw [if_neg (by simp [hinit]), if_pos (by simp [hnone])]
  · intro v0 hinit hsome
    exact hsend s hinit (by simp [hsome])
  · intro msg s' upd hupd hinit hlook hmem
    obtain ⟨upd', hlook', hrec⟩ := updateStatus_shape hupd
    rw [hlook'] at hlook
    cases (JVal.obj.inj (Option.some.inj hlook)).symm
    have hsome : (List.lookup name s'.status).isSome = true := by
      rw [hrec]
      exact lookup_foldl_statusInsert_mem upd s.status name hmem
    exact ⟨_, _, hsend s' hinit hsome⟩

/-- C6 amended, instance: NotReady before initialization, NotFound for a
never-observed name, and success (reaching the send) for an observed one,
also after a fresh batch delivers the name. -/
theorem setProperty_effect_instance :
    SetProperty (newSession "h" "p") "amp" (GoVal.int 6) = SetOutcome.notReady
    ∧ SetProperty exLiveState "missing" (GoVal.int 6) = SetOutcome.notFound
    ∧ SetProperty exLiveState "amp" (GoVal.int 6) =
        SetOutcome.update { exLiveState with requestId := exLiveState.requestId + 1 }
          (onSendResponse { exLiveState with requestId := exLiveState.requestId + 1 }
            exLiveState.secured
            [("type", GoVal.str "setValue"),
             ("requestId", GoVal.int (exLiveState.requestId + 1)),
             ("key", GoVal.str "amp"), ("value", transformValue (GoVal.int 6))])
    ∧ ∃ s'' frame,
        SetProperty { exLiveState with status := [("volt", JVal.num 230)] } "volt"
          (GoVal.int 6) = SetOutcome.update s'' frame := by
  refine ⟨?_, ?_, ?_, ?_⟩
  · exact (setProperty_effect (newSession "h" "p") "amp" (GoVal.int 6)).1 rfl
  · exact (setProperty_effect exLiveState "missing" (GoVal.int 6)).2.1 rfl rfl
  · exact (setProperty_effect exLiveState "amp" (GoVal.int 6)).2.2.1 (JVal.num 6) rfl rfl
  · exact (setProperty_effect { exLiveState with status := [] } "volt"
      (GoVal.int 6)).2.2.2 [("status", JVal.obj [("volt", JVal.num 230)])]
      { exLiveState with status := [("volt", JVal.num 230)] }
      [("volt", JVal.num 230)] rfl rfl rfl rfl

theorem getProperty_unfolded (pm : String → Option String)
    (pp : String → Option PostEntry) (s : SessionState) (name : String) :
    GetProperty pm pp s name =
      (if s.isInitialized = false then Except.error GetErr.notReady
       else
         match List.lookup (resolveKey pm pp name) s.status with
         | none => Except.error (GetErr.notFound (resolveKey pm pp name))
         | some v => Except.ok (postApply pp name v)) := by
  unfold GetProperty resolveKey postApply
  dsimp only
  by_cases hinit : s.isInitialized = true
  · rw [if_neg (by simp [hinit]), if_neg (by simp [hinit])]
    cases hpp : pp name <;> cases hpm : pm name <;> simp [hpp, hpm]
  · rw [if_pos (by simpa using hinit), if_pos (by simpa using hinit)]

/-- C7: `GetProperty` fails NotReady whenever the session is not
initialized, regardless of the name; when initialized it reads the key
obtained by resolving the name through the alias table — overridden by the
post-processing entry's own wire key when a transform is registered for the
original name — fails NotFound exactly when that key is absent, and
otherwise returns the stored value with the registered transform applied. -/
theorem getProperty_effect (pm : String → Option String)
    (pp : String → Option PostEntry) (s : SessionState) (name : String) :
    (s.isInitialized = false → GetProperty pm pp s name = Except.error GetErr.notReady)
    ∧ (s.isInitialized = true →
        List.lookup (resolveKey pm pp name) s.status = none →
        GetProperty pm pp s name =
          Except.error (GetErr.notFound (resolveKey pm pp name)))
    ∧ (∀ v, s.isInitialized = true →
        List.lookup (resolveKey pm pp name) s.status = some v →
        GetProperty pm pp s name = Except.ok (postApply pp name v)) := by
  refine ⟨?_, ?_, ?_⟩
  · intro h
    rw [getProperty_unfolded, if_pos h]
  · intro hinit hnone
    rw [getProperty_unfolded, if_neg (by simp [hinit]), hnone]
  · intro v hinit hsome
    rw [getProperty_unfolded, if_neg (by simp [hinit]), hsome]

/-- C7 instance: NotReady before initialization for an arbitrary name; on an
initialized store, NotFound for an unknown key, alias-resolved read for a
plain alias, and transform application for a post-processed name reading
through the entry's own wire key. -/
theorem getProperty_effect_instance :
    GetProperty exAliasMap exPostMap (newSession "h" "p") "anything" =
        Except.error GetErr.notReady
    ∧ GetProperty exAliasMap exPostMap exGetState "missing" =
        Except.error (GetErr.notFound "missing")
    ∧ GetProperty exAliasMap exPostMap exGetState "friendly" = Except.ok (JVal.num 1)
    ∧ GetProperty exAliasMap exPostMap exGetState "power1" = Except.ok (JVal.num 7) := by
  refine ⟨?_, ?_, ?_, ?_⟩
  · exact (getProperty_effect exAliasMap exPostMap (newSession "h" "p") "anything").1 rfl
  · exact (getProperty_effect exAliasMap exPostMap exGetState "missing").2.1 rfl rfl
  · exact (getProperty_effect exAliasMap exPostMap exGetState "friendly").2.2
      (JVal.num 1) rfl rfl
  · exact (getProperty_effect exAliasMap exPostMap exGetState "power1").2.2
      (JVal.str "230,231,229") rfl rfl

/-- C8 counter-evidence: an input that is already a float is sent through
unchanged by `transformValue` (wattpilot.go:536-543), whereas coercion to
the narrowest applicable wire type, trying integer first, would make the
integral float `2.0` the integer `2`.  (The JSON serialization of the two
coincides — see the last clause of the amended theorem — so the divergence
is in the dynamic type of the value, not in observable wire bytes.) -/
theorem transformValue_float_not_retried :
    transformValue (GoVal.float 2) = GoVal.float 2
    ∧ specCoerce (GoVal.float 2) = GoVal.int 2 := by
  exact ⟨rfl, by norm_num [specCoerce]⟩

/-- C8 amended: inputs already of integer or floating-point type are sent
unchanged; boolean and string inputs are coerced from their `%v` string to
the narrowest applicable wire type — integer, else boolean, else float,
else string, in that order (`specCoerce`) — and for every input the JSON
rendering of the sent value equals the rendering of the claim's coercion. -/
theorem transformValue_effect :
    (∀ i, transformValue (GoVal.int i) = GoVal.int i)
    ∧ (∀ q, transformValue (GoVal.float q) = GoVal.float q)
    ∧ (∀ b, transformValue (GoVal.bool b) = specCoerce (GoVal.bool b))
    ∧ (∀ t, transformValue (GoVal.str t) = specCoerce (GoVal.str t))
    ∧ (∀ v, renderVal (transformValue v) = renderVal (specCoerce v)) := by
  have hbool : ∀ b, transformValue (GoVal.bool b) = specCoerce (GoVal.bool b) := by
    intro b
    cases b <;> rfl
  have hstr : ∀ t, transformValue (GoVal.str t) = specCoerce (GoVal.str t) := by
    intro t
    cases hm : atoi? t with
    | some i => simp [transformValue, specCoerce, goSprint, hm]
    | none =>
      cases hb : parseBool? t with
      | some b => simp [transformValue, specCoerce, goSprint, hm, hb]
      | none =>
        cases hf : parseFloatQ? t with
        | some q => simp [transformValue, specCoerce, goSprint, hm, hb, hf]
        | none => simp [transformValue, specCoerce, goSprint, hm, hb, hf]
  refine ⟨fun i => rfl, fun q => rfl, hbool, hstr, ?_⟩
  intro v
  cases v with
  | int i => rfl
  | float q =>
    show renderVal (GoVal.float q) = renderVal (if q.den = 1 then GoVal.int q.num else GoVal.float q)
    by_cases hden : q.den = 1
    · rw [if_pos hden]
      show (if q.den = 1 then renderInt q.num else renderQ q) = renderInt q.num
      rw [if_pos hden]
    · rw [if_neg hden]
  | bool b => rw [hbool]
  | str t => rw [hstr]

/-!
## Round-trip lemmas for the flat JSON encoding (claim C9)
-/

theorem dval_hexDigitChar {d : Nat} (h : d < 10) : dval (hexDigitChar d) = d := by
  interval_cases d <;> decide

theorem isDigitC_hexDigitChar {d : Nat} (h : d < 10) :
    isDigitC (hexDigitChar d) = true := by
  interval_cases d <;> decide

theorem hexVal?_hexDigitChar {d : Nat} (h : d < 16) :
    hexVal? (hexDigitChar d) = some d := by
  interval_cases d <;> decide

/-- A decimal digit character is not one of the parser's dispatch
characters. -/
theorem isDigitC_facts {c : Char} (h : isDigitC c = true) :
    ¬ c = '"' ∧ ¬ c = 't' ∧ ¬ c = 'f' ∧ ¬ c = '-' := by
  refine ⟨?_, ?_, ?_, ?_⟩ <;> (intro hc; subst hc; simp [isDigitC] at h)

theorem digitsValFrom_append (acc : Nat) (xs ys : List Char) :
    digitsValFrom acc (xs ++ ys) = digitsValFrom (digitsValFrom acc xs) ys := by
  unfold digitsValFrom
  exact List.foldl_append _ _ _ _

/-- `parseDigitsCnt` consumes exactly a maximal run of digits. -/
theorem parseDigitsCnt_spec (ds : List Char) (hds : ∀ c ∈ ds, isDigitC c = true)
    (r : List Char) (hr : headNotDigit r) :
    ∀ acc k, parseDigitsCnt acc k (ds ++ r) = (digitsValFrom acc ds, k + ds.length, r) := by
  induction ds with
  | nil =>
    intro acc k
    cases r with
    | nil => rfl
    | cons c t =>
      have hc : isDigitC c = false := hr
      simp [parseDigitsCnt, hc, digitsValFrom]
  | cons d ds ih =>
    intro acc k
    have hd : isDigitC d = true := hds d (by simp)
    rw [List.cons_append]
    show parseDigitsCnt acc k (d :: (ds ++ r)) = _
    rw [show parseDigitsCnt acc k (d :: (ds ++ r))
        = if isDigitC d then parseDigitsCnt (acc * 10 + dval d) (k + 1) (ds ++ r)
          else (acc, k, d :: (ds ++ r)) from rfl, if_pos hd,
      ih (fun c hc => hds c (by simp [hc])) (acc * 10 + dval d) (k + 1)]
    show (digitsValFrom (acc * 10 + dval d) ds, k + 1 + ds.length, r)
      = (digitsValFrom (acc * 10 + dval d) ds, k + (ds.length + 1), r)
    have he : k + 1 + ds.length = k + (ds.length + 1) := by omega
    rw [he]

/-- Correctness of the decimal digit renderer: value, digits-only, length
bound, and non-emptiness. -/
theorem renderNatAux_spec (fuel : Nat) : ∀ n, n ≤ fuel →
    (∀ acc, digitsValFrom acc (renderNatAux fuel n)
        = acc * 10 ^ (renderNatAux fuel n).length + n)
    ∧ (∀ c ∈ renderNatAux fuel n, isDigitC c = true)
    ∧ (∀ k, n < 10 ^ k → (renderNatAux fuel n).length ≤ k)
    ∧ (n ≠ 0 → renderNatAux fuel n ≠ []) := by
  induction fuel with
  | zero =>
    intro n hn
    have : n = 0 := Nat.le_zero.mp hn
    subst this
    exact ⟨fun acc => by simp [renderNatAux, digitsValFrom], by simp [renderNatAux],
      fun k _ => by simp [renderNatAux], fun h => absurd rfl h⟩
  | succ fuel ih =>
    intro n hn
    by_cases h0 : n = 0
    · subst h0
      exact ⟨fun acc => by simp [renderNatAux, digitsValFrom], by simp [renderNatAux],
        fun k _ => by simp [renderNatAux], fun h => absurd rfl h⟩
    · have hstep : renderNatAux (fuel + 1) n
          = renderNatAux fuel (n / 10) ++ [hexDigitChar (n % 10)] := by
        rw [show renderNatAux (fuel + 1) n
            = if n = 0 then [] else renderNatAux fuel (n / 10) ++ [hexDigitChar (n % 10)]
          from rfl, if_neg h0]
      have hdiv : n / 10 ≤ fuel := by omega
      obtain ⟨ihv, ihd, ihl, -⟩ := ih (n / 10) hdiv
      refine ⟨?_, ?_, ?_, ?_⟩
      · intro acc
        rw [hstep, digitsValFrom_append, ihv acc]
        show (acc * 10 ^ (renderNatAux fuel (n / 10)).length + n / 10) * 10
            + dval (hexDigitChar (n % 10)) = _
        rw [dval_hexDigitChar (Nat.mod_lt n (by omega))]
        rw [List.length_append, List.length_singleton, pow_succ]
        have : n / 10 * 10 + n % 10 = n := by omega
        ring_nf
        omega
      · intro c hc
        rw [hstep] at hc
        rcases List.mem_append.mp hc with h | h
        · exact ihd c h
        · rw [List.mem_singleton.mp h]
          exact isDigitC_hexDigitChar (Nat.mod_lt n (by omega))
      · intro k hk
        rw [hstep, List.length_append, List.length_singleton]
        have hk1 : 1 ≤ k := by
          rcases Nat.eq_zero_or_pos k with rfl | h
          · simp at hk
            omega
          · exact h
        have : n / 10 < 10 ^ (k - 1) := by
          rw [Nat.div_lt_iff_lt_mul (by omega)]
          calc n < 10 ^ k := hk
          _ = 10 ^ (k - 1) * 10 := by
            rw [← pow_succ]
            congr 1
            omega
        have := ihl (k - 1) this
        omega
      · intro _
        rw [hstep]
        simp

theorem renderNat_spec (n : Nat) :
    (∀ acc, digitsValFrom acc (renderNat n) = acc * 10 ^ (renderNat n).length + n)
    ∧ (∀ c ∈ renderNat n, isDigitC c = true)
    ∧ (∀ k, 0 < k → n < 10 ^ k → (renderNat n).length ≤ k)
    ∧ renderNat n ≠ [] := by
  by_cases h0 : n = 0
  · subst h0
    refine ⟨fun acc => by simp [renderNat, digitsValFrom, dval], by decide, ?_, by decide⟩
    intro k hk _
    have h1 : (renderNat 0).length = 1 := by decide
    omega
  · unfold renderNat
    rw [if_neg h0]
    obtain ⟨hv, hd, hl, hne⟩ := renderNatAux_spec n n (le_refl n)
    exact ⟨hv, hd, fun k _ hk => hl k hk, hne h0⟩

theorem parseStringBodyFuel_u (fuel : Nat) (a b : Nat) (ha : a < 16) (hb : b < 16)
    (X : List Char) :
    parseStringBodyFuel (fuel + 1)
        ('\\' :: 'u' :: '0' :: '0' :: hexDigitChar a :: hexDigitChar b :: X)
      = (parseStringBodyFuel fuel X).map
          (fun p => (Char.ofNat (a * 16 + b) :: p.1, p.2)) := by
  rw [show parseStringBodyFuel (fuel + 1)
        ('\\' :: 'u' :: '0' :: '0' :: hexDigitChar a :: hexDigitChar b :: X)
      = (match hexVal? '0', hexVal? '0', hexVal? (hexDigitChar a),
            hexVal? (hexDigitChar b) with
         | some a2, some b2, some c2, some d2 =>
           (parseStringBodyFuel fuel X).map
             (fun p => (Char.ofNat (((a2 * 16 + b2) * 16 + c2) * 16 + d2) :: p.1, p.2))
         | _, _, _, _ => none) from rfl]
  rw [hexVal?_hexDigitChar ha, hexVal?_hexDigitChar hb,
    show hexVal? '0' = some 0 from rfl]
  show (parseStringBodyFuel fuel X).map
      (fun p => (Char.ofNat (((0 * 16 + 0) * 16 + a) * 16 + b) :: p.1, p.2)) = _
  have he : ((0 * 16 + 0) * 16 + a) * 16 + b = a * 16 + b := by omega
  rw [he]

theorem parseStringBodyFuel_u202x (fuel : Nat) (b : Nat) (hb : b < 16) (X : List Char) :
    parseStringBodyFuel (fuel + 1)
        ('\\' :: 'u' :: '2' :: '0' :: '2' :: hexDigitChar b :: X)
      = (parseStringBodyFuel fuel X).map
          (fun p => (Char.ofNat (0x2020 + b) :: p.1, p.2)) := by
  rw [show parseStringBodyFuel (fuel + 1)
        ('\\' :: 'u' :: '2' :: '0' :: '2' :: hexDigitChar b :: X)
      = (match hexVal? '2', hexVal? '0', hexVal? '2', hexVal? (hexDigitChar b) with
         | some a2, some b2, some c2, some d2 =>
           (parseStringBodyFuel fuel X).map
             (fun p => (Char.ofNat (((a2 * 16 + b2) * 16 + c2) * 16 + d2) :: p.1, p.2))
         | _, _, _, _ => none) from rfl]
  rw [hexVal?_hexDigitChar hb, show hexVal? '2' = some 2 from rfl,
    show hexVal? '0' = some 0 from rfl]

/-- Escaping at least preserves length. -/
theorem escapeChar_length (c : Char) : 1 ≤ (escapeChar c).length := by
  unfold escapeChar
  repeat' split
  all_goals simp

theorem escFold_length (l : List Char) :
    l.length ≤ (l.foldr (fun c acc => escapeChar c ++ acc) []).length := by
  induction l with
  | nil => simp
  | cons c cs ih =>
    simp only [List.foldr_cons, List.length_cons, List.length_append]
    have := escapeChar_length c
    omega

/-- The escape function and the string-body parser are inverse: unescaping
an escaped character stream up to the closing quote recovers the stream. -/
theorem parseStringBodyFuel_escape (l : List Char) (rest : List Char) :
    ∀ fuel, l.length < fuel →
    parseStringBodyFuel fuel (l.foldr (fun c acc => escapeChar c ++ acc) [] ++ ('"' :: rest))
      = some (l, rest) := by
  induction l with
  | nil =>
    intro fuel hf
    obtain ⟨f, rfl⟩ : ∃ f, fuel = f + 1 := ⟨fuel - 1, by omega⟩
    rfl
  | cons c cs ih =>
    intro fuel hf
    obtain ⟨f, rfl⟩ : ∃ f, fuel = f + 1 := ⟨fuel - 1, by omega⟩
    have hfs : cs.length < f := by
      simp only [List.length_cons] at hf
      omega
    show parseStringBodyFuel (f + 1)
        ((escapeChar c ++ cs.foldr (fun c acc => escapeChar c ++ acc) [])
          ++ ('"' :: rest)) = some (c :: cs, rest)
    rw [List.append_assoc]
    by_cases h1 : c = '"'
    · subst h1
      rw [show escapeChar '"' = ['\\', '"'] from rfl]
      simp only [List.cons_append, List.nil_append]
      rw [show ∀ X, parseStringBodyFuel (f + 1) ('\\' :: '"' :: X)
          = (parseStringBodyFuel f X).map (fun p => ('"' :: p.1, p.2)) from fun X => rfl,
        ih f hfs]
      rfl
    · by_cases h2 : c = '\\'
      · subst h2
        rw [show escapeChar '\\' = ['\\', '\\'] from rfl]
        simp only [List.cons_append, List.nil_append]
        rw [show ∀ X, parseStringBodyFuel (f + 1) ('\\' :: '\\' :: X)
            = (parseStringBodyFuel f X).map (fun p => ('\\' :: p.1, p.2)) from fun X => rfl,
          ih f hfs]
        rfl
      · by_cases h3 : c = '\n'
        · subst h3
          rw [show escapeChar '\n' = ['\\', 'n'] from rfl]
          simp only [List.cons_append, List.nil_append]
          rw [show ∀ X, parseStringBodyFuel (f + 1) ('\\' :: 'n' :: X)
              = (parseStringBodyFuel f X).map (fun p => ('\n' :: p.1, p.2)) from fun X => rfl,
            ih f hfs]
          rfl
        · by_cases h4 : c = '\r'
          · subst h4
            rw [show escapeChar '\r' = ['\\', 'r'] from rfl]
            simp only [List.cons_append, List.nil_append]
            rw [show ∀ X, parseStringBodyFuel (f + 1) ('\\' :: 'r' :: X)
                = (parseStringBodyFuel f X).map (fun p => ('\r' :: p.1, p.2)) from fun X => rfl,
              ih f hfs]
            rfl
          · by_cases h5 : c = '\t'
            · subst h5
              rw [show escapeChar '\t' = ['\\', 't'] from rfl]
              simp only [List.cons_append, List.nil_append]
              rw [show ∀ X, parseStringBodyFuel (f + 1) ('\\' :: 't' :: X)
                  = (parseStringBodyFuel f X).map (fun p => ('\t' :: p.1, p.2)) from fun X => rfl,
                ih f hfs]
              rfl
            · by_cases h6 : c.toNat < 0x20 ∨ c = '<' ∨ c = '>' ∨ c = '&'
              · have hesc : escapeChar c
                    = '\\' :: 'u' :: '0' :: '0' :: hexDigitChar (c.toNat / 16)
                      :: [hexDigitChar (c.toNat % 16)] := by
                  unfold escapeChar
                  rw [if_neg h1, if_neg h2, if_neg h3, if_neg h4, if_neg h5, if_pos h6]
                have hbound : c.toNat < 256 := by
                  rcases h6 with h | h | h | h
                  · omega
                  · subst h; decide
                  · subst h; decide
                  · subst h; decide
                rw [hesc]
                simp only [List.cons_append, List.nil_append]
                rw [parseStringBodyFuel_u f _ _ (by omega) (by omega), ih f hfs]
                have he : c.toNat / 16 * 16 + c.toNat % 16 = c.toNat := by omega
                rw [he, Char.ofNat_toNat]
                rfl
              · by_cases h7 : c.toNat = 0x2028 ∨ c.toNat = 0x2029
                · have hesc : escapeChar c
                      = ['\\', 'u', '2', '0', '2', hexDigitChar (c.toNat % 16)] := by
                    unfold escapeChar
                    rw [if_neg h1, if_neg h2, if_neg h3, if_neg h4, if_neg h5, if_neg h6,
                      if_pos h7]
                  rw [hesc]
                  simp only [List.cons_append, List.nil_append]
                  rw [parseStringBodyFuel_u202x f _ (by omega), ih f hfs]
                  have he : 0x2020 + c.toNat % 16 = c.toNat := by
                    rcases h7 with h | h <;> omega
                  rw [he, Char.ofNat_toNat]
                  rfl
                · have hesc : escapeChar c = [c] := by
                    unfold escapeChar
                    rw [if_neg h1, if_neg h2, if_neg h3, if_neg h4, if_neg h5, if_neg h6,
                      if_neg h7]
                  rw [hesc]
                  simp only [List.cons_append, List.nil_append]
                  rw [show parseStringBodyFuel (f + 1)
                        (c :: (cs.foldr (fun c acc => escapeChar c ++ acc) [] ++ ('"' :: rest)))
                      = if c = '"' then
                          some ([], cs.foldr (fun c acc => escapeChar c ++ acc) [] ++ ('"' :: rest))
                        else if c = '\\' then
                          (match cs.foldr (fun c acc => escapeChar c ++ acc) [] ++ ('"' :: rest) with
                           | 'u' :: h1 :: h2 :: h3 :: h4 :: rest2 =>
                             match hexVal? h1, hexVal? h2, hexVal? h3, hexVal? h4 with
                             | some a, some b, some c2, some d =>
                               (parseStringBodyFuel f rest2).map
                                 (fun p => (Char.ofNat (((a * 16 + b) * 16 + c2) * 16 + d) :: p.1, p.2))
                             | _, _, _, _ => none
                           | e :: rest2 =>
                             match unescapeChar? e with
                             | some c2 => (parseStringBodyFuel f rest2).map (fun p => (c2 :: p.1, p.2))
                             | none => none
                           | [] => none)
                        else (parseStringBodyFuel f
                            (cs.foldr (fun c acc => escapeChar c ++ acc) [] ++ ('"' :: rest))).map
                            (fun p => (c :: p.1, p.2)) from rfl]
                  rw [if_neg h1, if_neg h2, ih f hfs]
                  rfl

theorem parseStringBody_escape (l : List Char) (rest : List Char) :
    parseStringBody (l.foldr (fun c acc => escapeChar c ++ acc) [] ++ ('"' :: rest))
      = some (l, rest) := by
  unfold parseStringBody
  apply parseStringBodyFuel_escape
  have := escFold_length l
  simp only [List.length_append, List.length_cons]
  omega

theorem digitsValFrom_replicate_zero (z : Nat) :
    digitsValFrom 0 (List.replicate z '0') = 0 := by
  induction z with
  | zero => rfl
  | succ z ih =>
    show digitsValFrom (0 * 10 + dval '0') (List.replicate z '0') = 0
    rw [show (0 * 10 + dval '0') = 0 from by decide]
    exact ih

/-- The zero-padded fraction block: all digits, exact length `k`, value. -/
theorem padZeros_spec (k n : Nat) (hk : 0 < k) (hlt : n < 10 ^ k) :
    (∀ c ∈ padZeros k (renderNat n), isDigitC c = true)
    ∧ (padZeros k (renderNat n)).length = k
    ∧ digitsValFrom 0 (padZeros k (renderNat n)) = n
    ∧ padZeros k (renderNat n) ≠ [] := by
  obtain ⟨hv, hdig, hlen, hne⟩ := renderNat_spec n
  have hle : (renderNat n).length ≤ k := hlen k hk hlt
  refine ⟨?_, ?_, ?_, ?_⟩
  · intro c hc
    unfold padZeros at hc
    rcases List.mem_append.mp hc with h | h
    · rw [List.eq_of_mem_replicate h]
      decide
    · exact hdig c h
  · unfold padZeros
    rw [List.length_append, List.length_replicate]
    omega
  · unfold padZeros
    rw [digitsValFrom_append, digitsValFrom_replicate_zero]
    have := hv 0
    simpa using this
  · unfold padZeros
    intro hcontra
    rcases List.append_eq_nil.mp hcontra with ⟨-, h2⟩
    exact hne h2

theorem parseNumTail_end (ip : Nat) (d : Char) (tail : List Char)
    (hdot : d ≠ '.') (hexp : ¬ (d = 'e' ∨ d = 'E')) :
    parseNumTail ip (d :: tail) = some (GoVal.int ip, d :: tail) := by
  unfold parseNumTail
  dsimp only
  rw [if_neg hdot, if_neg hexp]

theorem parseNumStart_int (n : Nat) (d : Char) (tail : List Char)
    (hd : isDigitC d = false) (hdot : d ≠ '.') (hexp : ¬ (d = 'e' ∨ d = 'E')) :
    parseNumStart (renderNat n ++ d :: tail) = some (GoVal.int n, d :: tail) := by
  obtain ⟨hv, hdig, -, hne⟩ := renderNat_spec n
  unfold parseNumStart
  rw [parseDigitsCnt_spec (renderNat n) hdig (d :: tail) hd 0 0]
  have hval : digitsValFrom 0 (renderNat n) = n := by
    have := hv 0
    simpa using this
  have hlen : 0 + (renderNat n).length ≠ 0 := by
    have : renderNat n ≠ [] := hne
    cases h : renderNat n with
    | nil => exact absurd h this
    | cons a t => simp [h]
  show (if 0 + (renderNat n).length = 0 then none
    else parseNumTail (digitsValFrom 0 (renderNat n)) (d :: tail)) = _
  rw [if_neg hlen, hval, parseNumTail_end n d tail hdot hexp]

theorem parseValue_digit {c : Char} (h : isDigitC c = true) (cs : List Char) :
    parseValue (c :: cs) = parseNumStart (c :: cs) := by
  obtain ⟨n1, n2, n3, n4⟩ := isDigitC_facts h
  unfold parseValue
  dsimp only
  rw [if_neg n1, if_neg n2, if_neg n3, if_neg n4, if_pos h]

theorem parseValue_renderInt (i : ℤ) (d : Char) (tail : List Char)
    (hd : isDigitC d = false) (hdot : d ≠ '.') (hexp : ¬ (d = 'e' ∨ d = 'E')) :
    parseValue (renderInt i ++ d :: tail) = some (GoVal.int i, d :: tail) := by
  unfold renderInt
  by_cases hneg : i < 0
  · rw [if_pos hneg]
    simp only [List.cons_append]
    unfold parseValue
    dsimp only
    rw [if_neg (by decide), if_neg (by decide), if_neg (by decide), if_pos rfl]
    rw [parseNumStart_int i.natAbs d tail hd hdot hexp]
    show some (negVal (GoVal.int i.natAbs), d :: tail) = _
    unfold negVal
    dsimp only
    have he : -(i.natAbs : ℤ) = i := by omega
    rw [he]
  · rw [if_neg hneg]
    obtain ⟨-, hdig, -, hne⟩ := renderNat_spec i.natAbs
    have hhead : parseValue (renderNat i.natAbs ++ d :: tail)
        = parseNumStart (renderNat i.natAbs ++ d :: tail) := by
      cases hrn : renderNat i.natAbs with
      | nil => exact absurd hrn hne
      | cons c0 cs0 =>
        have hc0 : isDigitC c0 = true := hdig c0 (by rw [hrn]; simp)
        rw [List.cons_append, parseValue_digit hc0]
    rw [hhead, parseNumStart_int i.natAbs d tail hd hdot hexp]
    have he : (i.natAbs : ℤ) = i := by omega
    rw [he]

theorem decExpQ_mod {q : ℚ} {k : Nat} (h : decExpQ q = some k) :
    10 ^ k % q.den = 0 := by
  have := List.find?_some h
  simpa using this

theorem decExpQ_pos {q : ℚ} {k : Nat} (h : decExpQ q = some k) (hden : q.den ≠ 1) :
    0 < k := by
  rcases Nat.eq_zero_or_pos k with rfl | hk
  · have hmod := decExpQ_mod h
    rw [pow_zero] at hmod
    exact absurd (Nat.dvd_one.mp (Nat.dvd_of_mod_eq_zero hmod)) hden
  · exact hk

/-- If `q.den` divides `10^k`, then `q * 10^k` is an integer. -/
theorem mul_pow_den_one {q : ℚ} {k : Nat} (h : 10 ^ k % q.den = 0) :
    (q * 10 ^ k).den = 1 ∧ (((q * 10 ^ k).num : ℚ)) = q * 10 ^ k := by
  obtain ⟨c, hc⟩ := Nat.dvd_of_mod_eq_zero h
  have hden0 : ((q.den : ℚ)) ≠ 0 := by
    exact_mod_cast q.den_ne_zero
  have hqden : q * (q.den : ℚ) = (q.num : ℚ) := by
    calc q * (q.den : ℚ) = ((q.num : ℚ) / (q.den : ℚ)) * (q.den : ℚ) := by
          rw [Rat.num_div_den]
      _ = (q.num : ℚ) := div_mul_cancel₀ _ hden0
  have hint : q * 10 ^ k = (((q.num * c : ℤ) : ℚ)) := by
    have h10 : ((10 : ℚ)) ^ k = ((q.den : ℚ)) * ((c : ℚ)) := by
      rw [show ((10 : ℚ)) = ((10 : ℕ) : ℚ) from by norm_num, ← Nat.cast_pow, hc]
      push_cast
      ring
    rw [h10, ← mul_assoc, hqden]
    push_cast
    ring
  refine ⟨?_, ?_⟩
  · rw [hint]
    exact Rat.den_intCast _
  · rw [hint, Rat.num_intCast]

theorem parseAfterFrac_end (m : ℚ) (d : Char) (tail : List Char)
    (hexp : ¬ (d = 'e' ∨ d = 'E')) :
    parseAfterFrac m (d :: tail) = some (GoVal.float m, d :: tail) := by
  unfold parseAfterFrac
  dsimp only
  rw [if_neg hexp]

/-- Parsing the digits-dot-digits block rendered for a rational `q ≥ 0`
whose denominator divides `10^k` (`k > 0`) yields `q` back as a float. -/
theorem parseNumStart_fracBlock (a b k : Nat) (hk : 0 < k) (hb : b < 10 ^ k)
    (d : Char) (tail : List Char) (hd : isDigitC d = false)
    (hexp : ¬ (d = 'e' ∨ d = 'E')) :
    parseNumStart (renderNat a ++ '.' :: (padZeros k (renderNat b) ++ d :: tail))
      = some (GoVal.float ((a : ℚ) + (b : ℚ) / 10 ^ k), d :: tail) := by
  obtain ⟨hva, hdiga, -, hnea⟩ := renderNat_spec a
  obtain ⟨hdigp, hlenp, hvalp, hnep⟩ := padZeros_spec k b hk hb
  unfold parseNumStart
  have hnddot : headNotDigit ('.' :: (padZeros k (renderNat b) ++ d :: tail)) := by
    show isDigitC '.' = false
    decide
  rw [parseDigitsCnt_spec (renderNat a) hdiga ('.' :: (padZeros k (renderNat b) ++ d :: tail))
    hnddot 0 0]
  have hvala : digitsValFrom 0 (renderNat a) = a := by
    have := hva 0
    simpa using this
  have hlena : 0 + (renderNat a).length ≠ 0 := by
    cases h : renderNat a with
    | nil => exact absurd h hnea
    | cons x t => simp [h]
  show (if 0 + (renderNat a).length = 0 then none
    else parseNumTail (digitsValFrom 0 (renderNat a))
      ('.' :: (padZeros k (renderNat b) ++ d :: tail))) = _
  rw [if_neg hlena, hvala]
  unfold parseNumTail
  dsimp only
  rw [if_pos rfl]
  cases hpad : padZeros k (renderNat b) with
  | nil => exact absurd hpad hnep
  | cons p0 prest =>
    have hp0 : isDigitC p0 = true := by
      apply hdigp
      rw [hpad]
      simp
    rw [List.cons_append]
    dsimp only
    rw [if_pos hp0]
    rw [show (p0 :: (prest ++ d :: tail)) = ((p0 :: prest) ++ d :: tail) from rfl]
    rw [← hpad]
    rw [parseDigitsCnt_spec (padZeros k (renderNat b)) hdigp (d :: tail) hd 0 0]
    rw [hvalp]
    rw [show (0 + (padZeros k (renderNat b)).length) = k from by rw [hlenp]; omega]
    exact parseAfterFrac_end _ d tail hexp

theorem renderQ_eq {q : ℚ} {k : Nat} (h : decExpQ q = some k) (hk : k ≠ 0) :
    renderQ q = (if q < 0 then ['-'] else []) ++
      renderNat ((q * 10 ^ k).num.natAbs / 10 ^ k) ++
      '.' :: padZeros k (renderNat ((q * 10 ^ k).num.natAbs % 10 ^ k)) := by
  unfold renderQ
  rw [h]
  dsimp only
  rw [if_neg hk]

/-- Round trip for a non-integral rational through the plain-decimal
renderer and the numeric parser. -/
theorem parseValue_renderFloat {q : ℚ} {k : Nat} (hkq : decExpQ q = some k)
    (hden : q.den ≠ 1) (d : Char) (tail : List Char)
    (hdig : isDigitC d = false) (hexp : ¬ (d = 'e' ∨ d = 'E')) :
    parseValue (renderQ q ++ d :: tail) = some (GoVal.float q, d :: tail) := by
  have hk : 0 < k := decExpQ_pos hkq hden
  obtain ⟨hden1, hcast⟩ := mul_pow_den_one (decExpQ_mod hkq)
  rw [renderQ_eq hkq (by omega)]
  set m := (q * 10 ^ k).num.natAbs with hm
  have hb : m % 10 ^ k < 10 ^ k := Nat.mod_lt _ (pow_pos (by norm_num) k)
  have hab : ((m / 10 ^ k : ℕ) : ℚ) * 10 ^ k + ((m % 10 ^ k : ℕ) : ℚ) = (m : ℚ) := by
    have h : (m / 10 ^ k) * 10 ^ k + m % 10 ^ k = m := by
      rw [mul_comm]
      exact Nat.div_add_mod m (10 ^ k)
    exact_mod_cast congrArg (fun n : ℕ => (n : ℚ)) h
  have hT : ((10 : ℚ)) ^ k ≠ 0 := by positivity
  by_cases hneg : q < 0
  · have hql : q * 10 ^ k < 0 := mul_neg_of_neg_of_pos hneg (by positivity)
    have hnum : (q * 10 ^ k).num < 0 := by
      by_contra hcon
      push_neg at hcon
      exact absurd (Rat.num_nonneg.mp hcon) (not_le.mpr hql)
    have hmz : (m : ℤ) = -(q * 10 ^ k).num := by
      rw [hm]
      omega
    have hmq : (m : ℚ) = -(q * 10 ^ k) := by
      calc (m : ℚ) = ((m : ℤ) : ℚ) := by push_cast; ring
        _ = ((-(q * 10 ^ k).num : ℤ) : ℚ) := by exact_mod_cast hmz
        _ = -(q * 10 ^ k) := by rw [Int.cast_neg, hcast]
    have hval : ((m / 10 ^ k : ℕ) : ℚ) + ((m % 10 ^ k : ℕ) : ℚ) / 10 ^ k = -q := by
      have h2 : (((m / 10 ^ k : ℕ) : ℚ) + ((m % 10 ^ k : ℕ) : ℚ) / 10 ^ k) * 10 ^ k
          = (-q) * 10 ^ k := by
        rw [add_mul, div_mul_cancel₀ _ hT, hab, hmq]
        ring
      exact mul_right_cancel₀ hT h2
    rw [if_pos hneg]
    simp only [List.cons_append, List.nil_append, List.append_assoc]
    unfold parseValue
    dsimp only
    rw [if_neg (by decide), if_neg (by decide), if_neg (by decide), if_pos rfl]
    rw [parseNumStart_fracBlock (m / 10 ^ k) (m % 10 ^ k) k hk hb d tail hdig hexp]
    show some (negVal (GoVal.float _), d :: tail) = _
    unfold negVal
    dsimp only
    rw [hval, neg_neg]
  · have hq0 : 0 ≤ q := not_lt.mp hneg
    have hnum : 0 ≤ (q * 10 ^ k).num := Rat.num_nonneg.mpr (mul_nonneg hq0 (by positivity))
    have hmz : (m : ℤ) = (q * 10 ^ k).num := by
      rw [hm]
      omega
    have hmq : (m : ℚ) = q * 10 ^ k := by
      calc (m : ℚ) = ((m : ℤ) : ℚ) := by push_cast; ring
        _ = q * 10 ^ k := by rw [hmz, hcast]
    have hval : ((m / 10 ^ k : ℕ) : ℚ) + ((m % 10 ^ k : ℕ) : ℚ) / 10 ^ k = q := by
      have h2 : (((m / 10 ^ k : ℕ) : ℚ) + ((m % 10 ^ k : ℕ) : ℚ) / 10 ^ k) * 10 ^ k
          = q * 10 ^ k := by
        rw [add_mul, div_mul_cancel₀ _ hT, hab, hmq]
      exact mul_right_cancel₀ hT h2
    rw [if_neg hneg]
    simp only [List.nil_append, List.append_assoc, List.cons_append]
    obtain ⟨-, hdiga, -, hnea⟩ := renderNat_spec (m / 10 ^ k)
    have hhead : parseValue (renderNat (m / 10 ^ k)
          ++ '.' :: (padZeros k (renderNat (m % 10 ^ k)) ++ d :: tail))
        = parseNumStart (renderNat (m / 10 ^ k)
          ++ '.' :: (padZeros k (renderNat (m % 10 ^ k)) ++ d :: tail)) := by
      cases hrn : renderNat (m / 10 ^ k) with
      | nil => exact absurd hrn hnea
      | cons c0 cs0 =>
        have hc0 : isDigitC c0 = true := hdiga c0 (by rw [hrn]; simp)
        rw [List.cons_append, parseValue_digit hc0]
    rw [hhead, parseNumStart_fracBlock _ _ k hk hb d tail hdig hexp, hval]

/-- Round trip for a single rendered value followed by `,` or `}`: parsing
recovers the value in canonical numeric form and stops at the delimiter. -/
theorem parseValue_render (v : GoVal) (hv : renderableVal v = true)
    (d : Char) (tail : List Char) (hd : d = ',' ∨ d = '}') :
    parseValue (renderVal v ++ d :: tail) = some (canonVal v, d :: tail) := by
  have hdig : isDigitC d = false := by rcases hd with rfl | rfl <;> decide
  have hdot : d ≠ '.' := by rcases hd with rfl | rfl <;> decide
  have hexp : ¬ (d = 'e' ∨ d = 'E') := by rcases hd with rfl | rfl <;> decide
  cases v with
  | int i => exact parseValue_renderInt i d tail hdig hdot hexp
  | bool b => cases b <;> rfl
  | str s =>
    show parseValue (('"' :: (s.data.foldr (fun c acc => escapeChar c ++ acc) [] ++ ['"']))
        ++ d :: tail) = some (GoVal.str s, d :: tail)
    rw [List.cons_append]
    unfold parseValue
    dsimp only
    rw [if_pos rfl]
    rw [show (s.data.foldr (fun c acc => escapeChar c ++ acc) [] ++ ['"']) ++ d :: tail
        = s.data.foldr (fun c acc => escapeChar c ++ acc) [] ++ ('"' :: (d :: tail)) from by
      simp]
    rw [parseStringBody_escape s.data (d :: tail)]
    rfl
  | float q =>
    by_cases hden : q.den = 1
    · show parseValue (renderVal (GoVal.float q) ++ d :: tail)
        = some (canonVal (GoVal.float q), d :: tail)
      simp only [renderVal, canonVal, if_pos hden]
      exact parseValue_renderInt q.num d tail hdig hdot hexp
    · have hsome : (decExpQ q).isSome := by simpa [renderableVal] using hv
      obtain ⟨k, hkq⟩ := Option.isSome_iff_exists.mp hsome
      show parseValue (renderVal (GoVal.float q) ++ d :: tail)
        = some (canonVal (GoVal.float q), d :: tail)
      simp only [renderVal, canonVal, if_neg hden]
      exact parseValue_renderFloat hkq hden d tail hdig hexp

theorem renderFields_cons (k : String) (v : GoVal) (g : String × GoVal)
    (rest : List (String × GoVal)) :
    renderFields ((k, v) :: g :: rest)
      = renderStr k ++ ':' :: renderVal v ++ ',' :: renderFields (g :: rest) := rfl

theorem parseFieldsAux_quote (fuel : Nat) (cs1 : List Char) :
    parseFieldsAux (fuel + 1) ('"' :: cs1)
      = match parseStringBody cs1 with
        | some (kchars, ':' :: cs3) =>
          match parseValue cs3 with
          | some (v, ',' :: cs5) =>
            (parseFieldsAux fuel cs5).map (fun p => ((⟨kchars⟩, v) :: p.1, p.2))
          | some (v, '}' :: cs5) => some ([(⟨kchars⟩, v)], cs5)
          | _ => none
        | _ => none := rfl

/-- Round trip for the rendered fields of a nonempty flat object: the field
parser recovers the fields in canonical numeric form and consumes the
closing brace. -/
theorem parseFieldsAux_render (m : List (String × GoVal)) :
    ∀ fuel : Nat, m ≠ [] → renderableFields m = true →
    (renderFields m).length < fuel →
    parseFieldsAux fuel (renderFields m ++ ['}']) = some (canonFields m, []) := by
  induction m with
  | nil => intro fuel hne _ _; exact absurd rfl hne
  | cons f rest ih =>
    intro fuel hne hren hlen
    obtain ⟨k, v⟩ := f
    have hrv : renderableVal v = true := by
      simp [renderableFields] at hren
      exact hren.1
    cases fuel with
    | zero => omega
    | succ f =>
      cases rest with
      | nil =>
        show parseFieldsAux (f + 1)
          ((renderStr k ++ ':' :: renderVal v) ++ ['}']) = _
        rw [show (renderStr k ++ ':' :: renderVal v) ++ ['}']
            = '"' :: (k.data.foldr (fun c acc => escapeChar c ++ acc) []
              ++ ('"' :: (':' :: (renderVal v ++ ['}'])))) from by
          simp [renderStr]]
        rw [parseFieldsAux_quote]
        rw [parseStringBody_escape k.data (':' :: (renderVal v ++ ['}']))]
        show (match parseValue (renderVal v ++ '}' :: ([] : List Char)) with
          | some (v, ',' :: cs5) =>
            (parseFieldsAux f cs5).map (fun p => ((⟨k.data⟩, v) :: p.1, p.2))
          | some (v, '}' :: cs5) => some ([(⟨k.data⟩, v)], cs5)
          | _ => none) = some (canonFields [(k, v)], [])
        rw [parseValue_render v hrv '}' [] (Or.inr rfl)]
        rfl
      | cons g t =>
        have hren' : renderableFields (g :: t) = true := by
          simp [renderableFields] at hren ⊢
          exact hren.2
        have hlen' : (renderFields (g :: t)).length < f := by
          rw [renderFields_cons] at hlen
          simp only [List.length_append, List.length_cons] at hlen
          omega
        rw [renderFields_cons]
        rw [show (renderStr k ++ ':' :: renderVal v ++ ',' :: renderFields (g :: t)) ++ ['}']
            = '"' :: (k.data.foldr (fun c acc => escapeChar c ++ acc) []
              ++ ('"' :: (':' :: (renderVal v
                ++ (',' :: (renderFields (g :: t) ++ ['}'])))))) from by
          simp [renderStr]]
        rw [parseFieldsAux_quote]
        rw [parseStringBody_escape k.data
          (':' :: (renderVal v ++ (',' :: (renderFields (g :: t) ++ ['}']))))]
        show (match parseValue (renderVal v ++ ',' :: (renderFields (g :: t) ++ ['}'])) with
          | some (v, ',' :: cs5) =>
            (parseFieldsAux f cs5).map (fun p => ((⟨k.data⟩, v) :: p.1, p.2))
          | some (v, '}' :: cs5) => some ([(⟨k.data⟩, v)], cs5)
          | _ => none) = some (canonFields ((k, v) :: g :: t), [])
        rw [parseValue_render v hrv ',' (renderFields (g :: t) ++ ['}']) (Or.inl rfl)]
        show (parseFieldsAux f (renderFields (g :: t) ++ ['}'])).map
            (fun p => ((⟨k.data⟩, canonVal v) :: p.1, p.2))
          = some (canonFields ((k, v) :: g :: t), [])
        rw [ih f (by simp) hren' hlen']
        rfl

theorem renderFields_head (k : String) (v : GoVal) (rest : List (String × GoVal)) :
    ∃ t, renderFields ((k, v) :: rest) = '"' :: t := by
  cases rest with
  | nil =>
    exact ⟨k.data.foldr (fun c acc => escapeChar c ++ acc) [] ++ ['"']
      ++ ':' :: renderVal v, by simp [renderFields, renderStr]⟩
  | cons g t =>
    exact ⟨k.data.foldr (fun c acc => escapeChar c ++ acc) [] ++ ['"']
      ++ ':' :: renderVal v ++ ',' :: renderFields (g :: t), by
        rw [renderFields_cons]
        simp [renderStr]⟩

theorem sortFields_ne_nil (f : String × GoVal) (l : List (String × GoVal)) :
    sortFields (f :: l) ≠ [] := by
  show insertField f (sortFields l) ≠ []
  cases h : sortFields l with
  | nil => simp [insertField]
  | cons g t =>
    unfold insertField
    by_cases hlt : strLtB g.1 f.1 = true
    · rw [if_pos hlt]
      simp
    · rw [if_neg hlt]
      simp

theorem parseFlat_quote (t : List Char) :
    parseFlat ⟨'{' :: '"' :: t⟩
      = match parseFieldsAux ('"' :: t).length ('"' :: t) with
        | some (fs, []) => some fs
        | _ => none := rfl

/-- Parsing the client's own serialization of a flat object recovers its
fields, sorted by key and in canonical numeric form. -/
theorem parseFlat_marshalFlat (m : List (String × GoVal))
    (hv : renderableFields (sortFields m) = true) :
    parseFlat (jsonMarshalFlat m) = some (canonFields (sortFields m)) := by
  cases hsm : sortFields m with
  | nil =>
    unfold jsonMarshalFlat
    rw [hsm]
    rfl
  | cons f s' =>
    obtain ⟨k0, v0⟩ := f
    obtain ⟨t, ht⟩ := renderFields_head k0 v0 s'
    unfold jsonMarshalFlat
    rw [hsm, ht]
    rw [show ('{' :: ('"' :: t) ++ ['}']) = '{' :: '"' :: (t ++ ['}']) from by simp]
    rw [parseFlat_quote]
    rw [show ('"' :: (t ++ ['}'])) = renderFields ((k0, v0) :: s') ++ ['}'] from by
      rw [ht]; simp]
    rw [parseFieldsAux_render ((k0, v0) :: s') (renderFields ((k0, v0) :: s') ++ ['}']).length
      (by simp) (hsm ▸ hv) (by simp)]

theorem charListLt_asymm (a : List Char) :
    ∀ b, charListLt a b = true → charListLt b a = false := by
  induction a with
  | nil =>
    intro b hb
    cases b with
    | nil => exact absurd hb (by decide)
    | cons y ys => rfl
  | cons x xs ih =>
    intro b hb
    cases b with
    | nil => simp [charListLt] at hb
    | cons y ys =>
      unfold charListLt at hb ⊢
      by_cases h1 : x.toNat < y.toNat
      · rw [if_neg (by omega), if_pos h1]
      · by_cases h2 : y.toNat < x.toNat
        · rw [if_neg h1, if_pos h2] at hb
          exact absurd hb (by decide)
        · rw [if_neg h1, if_neg h2] at hb
          rw [if_neg h2, if_neg h1]
          exact ih ys hb

theorem strLtB_asymm {a b : String} (h : strLtB a b = true) : strLtB b a = false :=
  charListLt_asymm a.data b.data h

theorem insertField_head (f : String × GoVal) (l : List (String × GoVal)) :
    (insertField f l).head? = some f ∨ (insertField f l).head? = l.head? := by
  cases l with
  | nil => left; rfl
  | cons g t =>
    unfold insertField
    by_cases h : strLtB g.1 f.1 = true
    · right
      rw [if_pos h]
      rfl
    · left
      rw [if_neg h]
      rfl

theorem insertField_sorted (f : String × GoVal) :
    ∀ l, FieldsSorted l → FieldsSorted (insertField f l) := by
  intro l
  induction l with
  | nil =>
    intro _
    exact List.chain'_singleton f
  | cons g t ih =>
    intro hl
    have hl' := (List.chain'_cons'.mp hl)
    obtain ⟨hgh, ht⟩ := hl'
    unfold insertField
    by_cases h : strLtB g.1 f.1 = true
    · rw [if_pos h]
      apply List.chain'_cons'.mpr
      refine ⟨?_, ih ht⟩
      intro y hy
      rcases insertField_head f t with hh | hh
      · rw [hh] at hy
        simp at hy
        subst hy
        exact strLtB_asymm h
      · rw [hh] at hy
        exact hgh y hy
    · rw [if_neg h]
      apply List.chain'_cons'.mpr
      refine ⟨?_, List.chain'_cons'.mpr ⟨hgh, ht⟩⟩
      intro y hy
      simp at hy
      subst hy
      cases hb : strLtB g.1 f.1 with
      | false => rfl
      | true => exact absurd hb h

theorem sortFields_sorted (m : List (String × GoVal)) : FieldsSorted (sortFields m) := by
  induction m with
  | nil => exact List.chain'_nil
  | cons f t ih => exact insertField_sorted f (sortFields t) ih

theorem sortFields_id_of_sorted :
    ∀ l : List (String × GoVal), FieldsSorted l → sortFields l = l := by
  intro l
  induction l with
  | nil => intro _; rfl
  | cons g t ih =>
    intro hl
    obtain ⟨hgh, ht⟩ := List.chain'_cons'.mp hl
    show insertField g (sortFields t) = g :: t
    rw [ih ht]
    cases t with
    | nil => rfl
    | cons g2 t2 =>
      have hcmp : strLtB g2.1 g.1 = false := hgh g2 rfl
      unfold insertField
      rw [if_neg (by rw [hcmp]; exact Bool.false_ne_true)]

theorem renderVal_canonVal (v : GoVal) : renderVal (canonVal v) = renderVal v := by
  cases v with
  | float q =>
    by_cases hden : q.den = 1
    · simp only [canonVal, if_pos hden, renderVal]
    · simp only [canonVal, if_neg hden]
  | int i => rfl
  | bool b => rfl
  | str s => rfl

theorem renderFields_canon :
    ∀ l : List (String × GoVal), renderFields (canonFields l) = renderFields l := by
  intro l
  induction l with
  | nil => rfl
  | cons f t ih =>
    obtain ⟨k, v⟩ := f
    cases t with
    | nil =>
      show renderStr k ++ ':' :: renderVal (canonVal v) = renderStr k ++ ':' :: renderVal v
      rw [renderVal_canonVal]
    | cons g t2 =>
      show renderStr k ++ ':' :: renderVal (canonVal v)
            ++ ',' :: renderFields (canonFields (g :: t2))
          = renderStr k ++ ':' :: renderVal v ++ ',' :: renderFields (g :: t2)
      rw [renderVal_canonVal, ih]

theorem insertField_canon (f : String × GoVal) :
    ∀ l, insertField (f.1, canonVal f.2) (canonFields l) = canonFields (insertField f l) := by
  intro l
  induction l with
  | nil => rfl
  | cons g t ih =>
    show insertField (f.1, canonVal f.2) ((g.1, canonVal g.2) :: canonFields t)
      = canonFields (insertField f (g :: t))
    unfold insertField
    by_cases h : strLtB g.1 f.1 = true
    · rw [if_pos h, if_pos h, ih]
      rfl
    · rw [if_neg h, if_neg h]
      rfl

theorem sortFields_canon :
    ∀ l : List (String × GoVal), sortFields (canonFields l) = canonFields (sortFields l) := by
  intro l
  induction l with
  | nil => rfl
  | cons g t ih =>
    show insertField (g.1, canonVal g.2) (sortFields (canonFields t))
      = canonFields (insertField g (sortFields t))
    rw [ih]
    exact insertField_canon g (sortFields t)

/-- Re-serializing the parsed fields reproduces the original wire bytes. -/
theorem jsonMarshalFlat_canon_sort (m : List (String × GoVal)) :
    jsonMarshalFlat (canonFields (sortFields m)) = jsonMarshalFlat m := by
  unfold jsonMarshalFlat
  rw [sortFields_canon, sortFields_id_of_sorted (sortFields m) (sortFields_sorted m),
    renderFields_canon]

theorem renderableFields_cons (f : String × GoVal) (l : List (String × GoVal)) :
    renderableFields (f :: l) = (renderableVal f.2 && renderableFields l) := rfl

theorem insertField_renderable (f : String × GoVal) :
    ∀ l, renderableVal f.2 = true → renderableFields l = true →
    renderableFields (insertField f l) = true := by
  intro l
  induction l with
  | nil =>
    intro hf _
    show renderableFields [f] = true
    rw [renderableFields_cons, hf]
    rfl
  | cons g t ih =>
    intro hf hl
    rw [renderableFields_cons, Bool.and_eq_true] at hl
    unfold insertField
    by_cases h : strLtB g.1 f.1 = true
    · rw [if_pos h, renderableFields_cons, hl.1, ih hf hl.2]
      rfl
    · rw [if_neg h, renderableFields_cons, renderableFields_cons, hf, hl.1, hl.2]
      rfl

theorem sortFields_renderable :
    ∀ m : List (String × GoVal), renderableFields m = true →
    renderableFields (sortFields m) = true := by
  intro m
  induction m with
  | nil => intro _; rfl
  | cons f t ih =>
    intro hm
    rw [renderableFields_cons, Bool.and_eq_true] at hm
    exact insertField_renderable f (sortFields t) hm.1 (ih hm.2)

/-- C9 — Secure envelope round-trip: with the secured flag set, sending an
inner message `m` carrying integer request id `msgId` transmits exactly the
JSON object `{type: "securedMsg", data: d, requestId: "<id>sm", hmac: h}`
where `d` is the JSON serialization of `m` and `h` is the lowercase-hex
HMAC-SHA256 of the bytes of `d` under the session key; unwrapping — parsing
the embedded `data` string back into fields — reproduces the inner message
(its fields key-sorted and numerals in canonical form), and re-serializing
those fields yields bytes identical to `d`, so recomputing the mac over
them reproduces `h`; with the secured flag clear the inner message is
transmitted directly and unchanged. -/
theorem securedMsg_roundtrip (s : SessionState) (m : List (String × GoVal)) (msgId : ℤ)
    (hid : List.lookup "requestId" m = some (GoVal.int msgId))
    (hren : renderableFields m = true) :
    onSendResponse s true m = some (jsonMarshalFlat
        [("type", GoVal.str "securedMsg"),
         ("data", GoVal.str (jsonMarshalFlat m)),
         ("requestId", GoVal.str (intStr msgId ++ "sm")),
         ("hmac", GoVal.str (hexEncode (hmacSha256 (strBytes s.hashedpassword)
           (strBytes (jsonMarshalFlat m)))))])
    ∧ parseFlat (jsonMarshalFlat m) = some (canonFields (sortFields m))
    ∧ jsonMarshalFlat (canonFields (sortFields m)) = jsonMarshalFlat m
    ∧ hexEncode (hmacSha256 (strBytes s.hashedpassword)
        (strBytes (jsonMarshalFlat (canonFields (sortFields m)))))
      = hexEncode (hmacSha256 (strBytes s.hashedpassword)
        (strBytes (jsonMarshalFlat m)))
    ∧ onSendResponse s false m = some (jsonMarshalFlat m) := by
  refine ⟨?_, ?_, ?_, ?_, ?_⟩
  · unfold onSendResponse
    rw [if_pos rfl, hid]
  · exact parseFlat_marshalFlat m (sortFields_renderable m hren)
  · exact jsonMarshalFlat_canon_sort m
  · rw [jsonMarshalFlat_canon_sort m]
  · rfl

/-- C9 witness: the spec §8.6 inner message `{type:"setValue", requestId:1,
key:"amp", value:6}` on the running example session. -/
theorem securedMsg_roundtrip_instance :
    List.lookup "requestId" exInnerMsg = some (GoVal.int 1)
    ∧ renderableFields exInnerMsg = true
    ∧ (onSendResponse exLiveState true exInnerMsg = some (jsonMarshalFlat
          [("type", GoVal.str "securedMsg"),
           ("data", GoVal.str (jsonMarshalFlat exInnerMsg)),
           ("requestId", GoVal.str (intStr 1 ++ "sm")),
           ("hmac", GoVal.str (hexEncode (hmacSha256 (strBytes exLiveState.hashedpassword)
             (strBytes (jsonMarshalFlat exInnerMsg)))))])
      ∧ parseFlat (jsonMarshalFlat exInnerMsg) = some (canonFields (sortFields exInnerMsg))
      ∧ jsonMarshalFlat (canonFields (sortFields exInnerMsg)) = jsonMarshalFlat exInnerMsg
      ∧ hexEncode (hmacSha256 (strBytes exLiveState.hashedpassword)
          (strBytes (jsonMarshalFlat (canonFields (sortFields exInnerMsg)))))
        = hexEncode (hmacSha256 (strBytes exLiveState.hashedpassword)
          (strBytes (jsonMarshalFlat exInnerMsg)))
      ∧ onSendResponse exLiveState false exInnerMsg = some (jsonMarshalFlat exInnerMsg)) :=
  ⟨rfl, rfl, securedMsg_roundtrip exLiveState exInnerMsg 1 rfl rfl⟩

end Wattpilot
